import Mathlib

/-!
Verification development for the chunk-verification engine
(`skills/pdf-chunker/scripts/verify_chunks.py`).

The Python program is shallowly embedded: JSON values become the inductive
type `JValue`, a chunk object becomes an association list, and every check of
`ChunkVerifier` becomes an executable Lean definition that mirrors the Python
control flow.  Human-readable finding messages are elided; a finding is
modelled by the data the Python code stores with it (chunk position, field
identifier, severity, and the values interpolated into the message).

Modelling notes on the crash-free domain (deviations are confined to inputs
on which the Python program raises an uncaught exception or relies on exotic
cross-type comparisons; theorems below are only invoked away from them):
* numbers are modelled as integers (the datasets under verification carry
  integer pages, sequence numbers and split indices);
* a non-`dict` chunk, a non-string `text` / `section_path` entry, and
  non-integer values in positions that Python would try to sort or compare
  (`chunk_seq`, `split_index`, `split_total`, page numbers) crash the Python
  program; the embedding is total and gives such inputs a harmless default,
  as noted at each definition;
* `\s` and `\d` of the regexes are modelled as the usual ASCII whitespace
  class and the ASCII digits.
-/

/-- JSON values as loaded by `json.load`: null, booleans, (integer) numbers,
strings, arrays, and objects with insertion-ordered keys. -/
inductive JValue where
  | null
  | bool (b : Bool)
  | int (n : Int)
  | str (s : String)
  | arr (xs : List JValue)
  | obj (kvs : List (String × JValue))

mutual

def jdecEq : (a b : JValue) → Decidable (a = b)
  | .null, .null => isTrue rfl
  | .bool a, .bool b =>
    match Bool.decEq a b with
    | isTrue h => isTrue (by rw [h])
    | isFalse h => isFalse (fun hc => h (JValue.bool.inj hc))
  | .int a, .int b =>
    match Int.decEq a b with
    | isTrue h => isTrue (by rw [h])
    | isFalse h => isFalse (fun hc => h (JValue.int.inj hc))
  | .str a, .str b =>
    match String.decEq a b with
    | isTrue h => isTrue (by rw [h])
    | isFalse h => isFalse (fun hc => h (JValue.str.inj hc))
  | .arr xs, .arr ys =>
    match jdecEqList xs ys with
    | isTrue h => isTrue (by rw [h])
    | isFalse h => isFalse (fun hc => h (JValue.arr.inj hc))
  | .obj xs, .obj ys =>
    match jdecEqKV xs ys with
    | isTrue h => isTrue (by rw [h])
    | isFalse h => isFalse (fun hc => h (JValue.obj.inj hc))
  | .null, .bool _ => isFalse (fun hc => JValue.noConfusion hc)
  | .null, .int _ => isFalse (fun hc => JValue.noConfusion hc)
  | .null, .str _ => isFalse (fun hc => JValue.noConfusion hc)
  | .null, .arr _ => isFalse (fun hc => JValue.noConfusion hc)
  | .null, .obj _ => isFalse (fun hc => JValue.noConfusion hc)
  | .bool _, .null => isFalse (fun hc => JValue.noConfusion hc)
  | .bool _, .int _ => isFalse (fun hc => JValue.noConfusion hc)
  | .bool _, .str _ => isFalse (fun hc => JValue.noConfusion hc)
  | .bool _, .arr _ => isFalse (fun hc => JValue.noConfusion hc)
  | .bool _, .obj _ => isFalse (fun hc => JValue.noConfusion hc)
  | .int _, .null => isFalse (fun hc => JValue.noConfusion hc)
  | .int _, .bool _ => isFalse (fun hc => JValue.noConfusion hc)
  | .int _, .str _ => isFalse (fun hc => JValue.noConfusion hc)
  | .int _, .arr _ => isFalse (fun hc => JValue.noConfusion hc)
  | .int _, .obj _ => isFalse (fun hc => JValue.noConfusion hc)
  | .str _, .null => isFalse (fun hc => JValue.noConfusion hc)
  | .str _, .bool _ => isFalse (fun hc => JValue.noConfusion hc)
  | .str _, .int _ => isFalse (fun hc => JValue.noConfusion hc)
  | .str _, .arr _ => isFalse (fun hc => JValue.noConfusion hc)
  | .str _, .obj _ => isFalse (fun hc => JValue.noConfusion hc)
  | .arr _, .null => isFalse (fun hc => JValue.noConfusion hc)
  | .arr _, .bool _ => isFalse (fun hc => JValue.noConfusion hc)
  | .arr _, .int _ => isFalse (fun hc => JValue.noConfusion hc)
  | .arr _, .str _ => isFalse (fun hc => JValue.noConfusion hc)
  | .arr _, .obj _ => isFalse (fun hc => JValue.noConfusion hc)
  | .obj _, .null => isFalse (fun hc => JValue.noConfusion hc)
  | .obj _, .bool _ => isFalse (fun hc => JValue.noConfusion hc)
  | .obj _, .int _ => isFalse (fun hc => JValue.noConfusion hc)
  | .obj _, .str _ => isFalse (fun hc => JValue.noConfusion hc)
  | .obj _, .arr _ => isFalse (fun hc => JValue.noConfusion hc)
termination_by structural a => a

def jdecEqList : (xs ys : List JValue) → Decidable (xs = ys)
  | [], [] => isTrue rfl
  | [], _ :: _ => isFalse (fun hc => List.noConfusion hc)
  | _ :: _, [] => isFalse (fun hc => List.noConfusion hc)
  | x :: xs, y :: ys =>
    match jdecEq x y with
    | isTrue h1 =>
      match jdecEqList xs ys with
      | isTrue h2 => isTrue (by rw [h1, h2])
      | isFalse h2 => isFalse (fun hc => h2 (List.cons.inj hc).2)
    | isFalse h1 => isFalse (fun hc => h1 (List.cons.inj hc).1)
termination_by structural a => a

def jdecEqKV : (xs ys : List (String × JValue)) → Decidable (xs = ys)
  | [], [] => isTrue rfl
  | [], _ :: _ => isFalse (fun hc => List.noConfusion hc)
  | _ :: _, [] => isFalse (fun hc => List.noConfusion hc)
  | (k, v) :: xs, (k2, v2) :: ys =>
    match String.decEq k k2 with
    | isTrue hk =>
      match jdecEq v v2 with
      | isTrue h1 =>
        match jdecEqKV xs ys with
        | isTrue h2 => isTrue (by rw [hk, h1, h2])
        | isFalse h2 => isFalse (fun hc => h2 (List.cons.inj hc).2)
      | isFalse h1 => isFalse (fun hc => h1 (congrArg Prod.snd (List.cons.inj hc).1))
    | isFalse hk => isFalse (fun hc => hk (congrArg Prod.fst (List.cons.inj hc).1))
termination_by structural a => a

end

instance : DecidableEq JValue := jdecEq

/-- A chunk object (a JSON object), kept as its key/value list. -/
abbrev Chunk := List (String × JValue)

/-- Python `d[k]` / `d.get(k)` without default: the value stored under the
first occurrence of the key, if any. -/
def jget (c : List (String × JValue)) (k : String) : Option JValue :=
  (c.find? (fun p => p.1 = k)).map (·.2)

/-- Python `k in d`. -/
def hasKey (c : List (String × JValue)) (k : String) : Bool :=
  (jget c k).isSome

/-- Python `d.get(k)` combined with an `is not None` test: a JSON `null`
loads as Python `None`, so a present-but-null value behaves like an absent
key for such tests. -/
def jgetNN (c : List (String × JValue)) (k : String) : Option JValue :=
  match jget c k with
  | some .null => none
  | x => x

/-- Python truthiness of a loaded JSON value. -/
def jtruthy : JValue → Bool
  | .null => false
  | .bool b => b
  | .int n => n ≠ 0
  | .str s => !s.isEmpty
  | .arr xs => !xs.isEmpty
  | .obj kvs => !kvs.isEmpty

/-- Python `v == n` for an integer `n` (booleans compare as 0/1). -/
def pyIntEq (v : JValue) (n : Int) : Bool :=
  match v with
  | .int m => m = n
  | .bool b => (if b then (1 : Int) else 0) = n
  | _ => false

-- === Schema definitions (top of verify_chunks.py) ===

def REQUIRED_CHUNK_FIELDS : List String :=
  ["id", "chunk_id", "doc_id", "section_index", "chunk_seq",
   "section_id", "chunk_type", "section_path", "section_title",
   "page_start", "page_end", "locators", "context_prefix", "text",
   "split",
   "prev_chunk_id", "next_chunk_id",
   "images", "tables", "tables_data", "references", "equations",
   "keywords"]

def REQUIRED_SPLIT_FIELDS : List String :=
  ["group_id", "split_index", "split_total", "logical_range"]

def REQUIRED_LOCATOR_SPAN_FIELDS : List String :=
  ["source_pdf", "pdf_page_start", "pdf_page_end", "doc_page_start", "doc_page_end"]

def REQUIRED_REFERENCE_FIELDS : List String :=
  ["target", "type"]

/-- Membership of a loaded value in the closed string set
`VALID_CHUNK_TYPES` (a non-string value is never a member). -/
def validChunkType (v : JValue) : Bool :=
  match v with
  | .str s => s = "section" || s = "table" || s = "image_caption" || s = "micro" || s = "intro"
  | _ => false

def validRefType (v : JValue) : Bool :=
  match v with
  | .str s => s = "internal" || s = "cross_part" || s = "external"
  | _ => false

def validRelationType (v : JValue) : Bool :=
  match v with
  | .str s => s = "requires" || s = "defines" || s = "restricts" || s = "exempts" || s = "supplements"
  | _ => false

/-- The entity-type set, shared by `VALID_ENTITY_TYPES` and the identical
literal set inside the `ontology_keywords` check. -/
def validEntityType (v : JValue) : Bool :=
  match v with
  | .str s => s = "ship_type" || s = "structural_member" || s = "equipment" ||
      s = "material" || s = "inspection" || s = "load_condition" || s = "parameter"
  | _ => false

/-- Structured rendition of the `field` string of a schema finding.
Constant field names map to `flat`; the f-string fields keep the
interpolated index/name structurally (`spanElem i s` renders as
`locators.spans[i]s`, `refElem i s` as `references[i]s`, `okElem j` as
`ontology_keywords[j]`, `deElem i s` as `domain_entities[i]s`,
`tdElem t s` as `tables_data.t.s`, `eqElem i s` as `equations[i]s`,
`splitSub s` as `split.s`). -/
inductive SchemaField where
  | flat (name : String)
  | splitSub (sub : String)
  | spanElem (i : Nat) (sub : String)
  | refElem (i : Nat) (sub : String)
  | okElem (j : Nat)
  | deElem (i : Nat) (sub : String)
  | tdElem (tname sub : String)
  | eqElem (i : Nat) (sub : String)
deriving DecidableEq

/-- One schema finding (`SchemaError` dataclass); the Korean message text is
elided, the rest of the stored data is kept. -/
structure SchemaError where
  chunk_seq : JValue
  chunk_id : JValue
  field : SchemaField
  severity : String
deriving DecidableEq

/-- `chunk.get("chunk_seq", -1)` as used when a finding is created. -/
def seqOf (c : Chunk) : JValue := (jget c "chunk_seq").getD (.int (-1))

/-- `chunk.get("chunk_id", "?")` as used when a finding is created. -/
def cidOf (c : Chunk) : JValue := (jget c "chunk_id").getD (.str "?")

def mkSE (c : Chunk) (f : SchemaField) (sev : String) : SchemaError :=
  ⟨seqOf c, cidOf c, f, sev⟩

/-- Iteration with `enumerate`: apply an element check that knows its index. -/
def idxAux (f : Nat → JValue → List SchemaError) : Nat → List JValue → List SchemaError
  | _, [] => []
  | i, x :: rest => f i x ++ idxAux f (i + 1) rest

-- === verify_schema, block by block ===

/-- Required-field presence loop. -/
def requiredBlock (c : Chunk) : List SchemaError :=
  REQUIRED_CHUNK_FIELDS.filterMap
    (fun f => if hasKey c f then none else some (mkSE c (.flat f) "error"))

/-- `chunk_type` enum membership (skipped when absent or null). -/
def chunkTypeBlock (c : Chunk) : List SchemaError :=
  match jgetNN c "chunk_type" with
  | some v => if validChunkType v then [] else [mkSE c (.flat "chunk_type") "error"]
  | none => []

def spanItemFindings (c : Chunk) (i : Nat) (s : JValue) : List SchemaError :=
  match s with
  | .obj kvs =>
    REQUIRED_LOCATOR_SPAN_FIELDS.filterMap
      (fun sf => if hasKey kvs sf then none else some (mkSE c (.spanElem i ("." ++ sf)) "error"))
  | _ => [mkSE c (.spanElem i "") "error"]

/-- `locators` structural check: object with a non-empty `spans` list of
objects carrying the five span fields. -/
def locatorsBlock (c : Chunk) : List SchemaError :=
  match jgetNN c "locators" with
  | none => []
  | some (.obj locs) =>
    match jget locs "spans" with
    | none => [mkSE c (.flat "locators.spans") "error"]
    | some (.arr xs) =>
      if xs.isEmpty then [mkSE c (.flat "locators.spans") "error"]
      else idxAux (spanItemFindings c) 0 xs
    | some _ => [mkSE c (.flat "locators.spans") "error"]
  | some _ => [mkSE c (.flat "locators") "error"]

/-- Gather the values stored under `k` across the span objects, as the
derived-page check does.  Returns `none` when a present value is not an
integer (Python would raise `TypeError` at `min`/`max`/`!=`; the enclosing
`except` then drops the whole check). -/
def getIntsFor (xs : List JValue) (k : String) : Option (List Int) :=
  let raw := xs.filterMap (fun s => match s with | .obj kvs => jget kvs k | _ => none)
  if raw.all (fun v => match v with | .int _ => true | _ => false)
  then some (raw.filterMap (fun v => match v with | .int n => some n | _ => none))
  else none

def minD : List Int → Int
  | [] => 0
  | x :: xs => xs.foldl min x

def maxD : List Int → Int
  | [] => 0
  | x :: xs => xs.foldl max x

def pageCheck (c : Chunk) (actual : Option JValue) (fname : String) (expected : Int) : List SchemaError :=
  match actual with
  | some v => if pyIntEq v expected then [] else [mkSE c (.flat fname) "error"]
  | none => []

/-- Derived-field consistency: `page_start` against the span minimum and
`page_end` against the span maximum.  A `ValueError` (no span has the key)
or `TypeError` (non-integer value) silently drops both checks. -/
def derivedBlock (c : Chunk) : List SchemaError :=
  match jgetNN c "locators" with
  | some (.obj locs) =>
    match jget locs "spans" with
    | some (.arr xs) =>
      if xs.isEmpty then []
      else
        match getIntsFor xs "doc_page_start", getIntsFor xs "doc_page_end" with
        | some ps, some pe =>
          if ps.isEmpty ∨ pe.isEmpty then []
          else
            pageCheck c (jgetNN c "page_start") "page_start" (minD ps)
              ++ pageCheck c (jgetNN c "page_end") "page_end" (maxD pe)
        | _, _ => []
    | _ => []
  | _ => []

/-- `split` structural check (null allowed). -/
def splitFieldBlock (c : Chunk) : List SchemaError :=
  match jgetNN c "split" with
  | none => []
  | some (.obj s) =>
    (REQUIRED_SPLIT_FIELDS.filterMap
      (fun sf => if hasKey s sf then none else some (mkSE c (.splitSub sf) "error")))
    ++ (match jget s "split_index", jget s "split_total" with
        | some (.int si), some (.int st) =>
          if si < 0 ∨ st ≤ si then [mkSE c (.splitSub "split_index") "error"] else []
        | _, _ => [])
  | some _ => [mkSE c (.flat "split") "error"]

def refItemFindings (c : Chunk) (i : Nat) (r : JValue) : List SchemaError :=
  match r with
  | .obj rf =>
    (REQUIRED_REFERENCE_FIELDS.filterMap
      (fun f => if hasKey rf f then none else some (mkSE c (.refElem i ("." ++ f)) "error")))
    ++ (let rtype := (jget rf "type").getD .null
        if jtruthy rtype && !validRefType rtype
        then [mkSE c (.refElem i ".type") "error"] else [])
    ++ (match jgetNN rf "relation" with
        | some rel =>
          if validRelationType rel then [] else [mkSE c (.refElem i ".relation") "warning"]
        | none => [])
    ++ (match jget rf "target_norm" with
        | some (.obj tn) =>
          if (tn.filter (fun p => p.2 = JValue.null)).isEmpty then []
          else [mkSE c (.refElem i ".target_norm") "warning"]
        | _ => [])
  | _ => [mkSE c (.refElem i "") "error"]

/-- `references` check.  Note the guard `isinstance(refs, list)`: a
present-but-null (or otherwise non-list) value skips the whole block. -/
def referencesBlock (c : Chunk) : List SchemaError :=
  match (jget c "references").getD (.arr []) with
  | .arr rs => idxAux (refItemFindings c) 0 rs
  | _ => []

def sectionPathBlock (c : Chunk) : List SchemaError :=
  match jgetNN c "section_path" with
  | some (.arr xs) => if xs.isEmpty then [mkSE c (.flat "section_path") "error"] else []
  | some _ => [mkSE c (.flat "section_path") "error"]
  | none => []

def keywordsBlock (c : Chunk) : List SchemaError :=
  match jgetNN c "keywords" with
  | some (.arr xs) => if xs.isEmpty then [mkSE c (.flat "keywords") "warning"] else []
  | some _ => [mkSE c (.flat "keywords") "error"]
  | none => []

def okItemFindings (c : Chunk) (j : Nat) (item : JValue) : List SchemaError :=
  match item with
  | .obj kvs =>
    if !hasKey kvs "mention" || !hasKey kvs "type" then [mkSE c (.okElem j) "warning"]
    else if validEntityType ((jget kvs "type").getD .null) then []
    else [mkSE c (.okElem j) "warning"]
  | _ => [mkSE c (.okElem j) "warning"]

def ontologyBlock (c : Chunk) : List SchemaError :=
  match jgetNN c "ontology_keywords" with
  | some (.arr xs) => idxAux (okItemFindings c) 0 xs
  | some _ => [mkSE c (.flat "ontology_keywords") "warning"]
  | none => []

/-- The Python whitespace class used by `str.strip` and `\s`
(ASCII part; the concrete texts below contain no exotic whitespace). -/
def isPySpace (c : Char) : Bool :=
  c = ' ' || c = '\t' || c = '\n' || c = '\r' || c = '\x0b' || c = '\x0c'

def textBlock (c : Chunk) : List SchemaError :=
  match jgetNN c "text" with
  | some (.str s) =>
    if (s.data.filter (fun ch => !isPySpace ch)).isEmpty
    then [mkSE c (.flat "text") "error"] else []
  | some _ => [mkSE c (.flat "text") "error"]
  | none => []

def embeddingBlock (c : Chunk) : List SchemaError :=
  if hasKey c "embedding" then [mkSE c (.flat "embedding") "warning"] else []

def deItemFindings (c : Chunk) (i : Nat) (ent : JValue) : List SchemaError :=
  match ent with
  | .obj kvs =>
    (["mention", "canonical", "type"].filterMap
      (fun f => if hasKey kvs f then none else some (mkSE c (.deElem i ("." ++ f)) "warning")))
    ++ (let etype := (jget kvs "type").getD .null
        if jtruthy etype && !validEntityType etype
        then [mkSE c (.deElem i ".type") "warning"] else [])
  | _ => [mkSE c (.deElem i "") "warning"]

def domainEntitiesBlock (c : Chunk) : List SchemaError :=
  match jgetNN c "domain_entities" with
  | some (.arr xs) => idxAux (deItemFindings c) 0 xs
  | some _ => [mkSE c (.flat "domain_entities") "warning"]
  | none => []

def applicabilityBlock (c : Chunk) : List SchemaError :=
  match jgetNN c "applicability" with
  | some (.obj _) => []
  | some _ => [mkSE c (.flat "applicability") "warning"]
  | none => []

def normativeValuesBlock (c : Chunk) : List SchemaError :=
  match jgetNN c "normative_values" with
  | some (.arr _) => []
  | some _ => [mkSE c (.flat "normative_values") "warning"]
  | none => []

def tableOversizedBlock (c : Chunk) : List SchemaError :=
  match jget c "chunk_type" with
  | some (.str s) =>
    if s = "table" && !hasKey c "table_oversized"
    then [mkSE c (.flat "table_oversized") "warning"] else []
  | _ => []

def tdEntryFindings (c : Chunk) (tname : String) (tdata : JValue) : List SchemaError :=
  match tdata with
  | .obj kvs =>
    ["title", "columns", "rows"].filterMap
      (fun f => if hasKey kvs f then none else some (mkSE c (.tdElem tname f) "error"))
  | _ => []

/-- `tables_data`: must be an object when present; a present-but-null value
warns (the contract asks for an empty object instead of null). -/
def tablesDataBlock (c : Chunk) : List SchemaError :=
  match jget c "tables_data" with
  | none => []
  | some .null => [mkSE c (.flat "tables_data") "warning"]
  | some (.obj kvs) => kvs.flatMap (fun p => tdEntryFindings c p.1 p.2)
  | some _ => [mkSE c (.flat "tables_data") "error"]

def eqItemFindings (c : Chunk) (i : Nat) (e : JValue) : List SchemaError :=
  match e with
  | .obj kvs =>
    ["name", "symbol", "expression"].filterMap
      (fun f => if hasKey kvs f then none else some (mkSE c (.eqElem i ("." ++ f)) "error"))
  | _ => [mkSE c (.eqElem i "") "error"]

/-- `equations`: must be a list when present; a present-but-null value warns
(the contract asks for an empty list instead of null). -/
def equationsBlock (c : Chunk) : List SchemaError :=
  match jget c "equations" with
  | none => []
  | some .null => [mkSE c (.flat "equations") "warning"]
  | some (.arr xs) => idxAux (eqItemFindings c) 0 xs
  | some _ => [mkSE c (.flat "equations") "error"]

/-- All schema findings for one chunk, in emission order
(`ChunkVerifier.verify_schema` loop body). -/
def verify_schema_chunk (c : Chunk) : List SchemaError :=
  requiredBlock c ++ chunkTypeBlock c ++ locatorsBlock c ++ derivedBlock c
    ++ splitFieldBlock c ++ referencesBlock c ++ sectionPathBlock c
    ++ keywordsBlock c ++ ontologyBlock c ++ textBlock c ++ embeddingBlock c
    ++ domainEntitiesBlock c ++ applicabilityBlock c ++ normativeValuesBlock c
    ++ tableOversizedBlock c ++ tablesDataBlock c ++ equationsBlock c

/-- `ChunkVerifier.verify_schema` over the whole `chunks` array. -/
def verify_schema (chunks : List Chunk) : List SchemaError :=
  chunks.flatMap verify_schema_chunk

-- === verify_structure ===

/-- One structural finding (`StructureError` dataclass); the constructor is
the `error_type` tag and the arguments are the data interpolated into the
`detail` message. -/
inductive StructureError where
  | duplicate_seq (seq : Option JValue) (count : Nat)
  | seq_not_zero (start : Int)
  | seq_gap (missing : List Int)
  | split_total_mismatch (gid : JValue)
  | split_count_mismatch (gid : JValue) (total : Int) (actual : Nat)
  | split_index_gap (gid : JValue) (expected actual : List Int)
  | section_index_mismatch (sid : JValue)
  | prev_chunk_id_error (cid prev : JValue)
  | next_chunk_id_error (cid next2 : JValue)
  | prev_chunk_id_dangling (cid prev : JValue)
  | next_chunk_id_dangling (cid next2 : JValue)
deriving DecidableEq

/-- Severity of a structural finding: the head/tail null-pointer checks pass
`severity="warning"`, everything else uses the `"error"` default. -/
def structSeverity : StructureError → String
  | .prev_chunk_id_error _ _ => "warning"
  | .next_chunk_id_error _ _ => "warning"
  | _ => "error"

/-- Distinct elements of a list in order of first occurrence (iteration
order of the keys of a `Counter` / insertion-ordered dict). -/
def dedupFirstAux {α : Type} [DecidableEq α] (seen : List α) : List α → List α
  | [] => []
  | x :: xs => if x ∈ seen then dedupFirstAux seen xs else x :: dedupFirstAux (x :: seen) xs

def dedupFirst {α : Type} [DecidableEq α] (l : List α) : List α :=
  dedupFirstAux [] l

/-- `c.get("chunk_seq")` — the key of the duplicate counter. -/
def seqKeyOf (c : Chunk) : Option JValue := jget c "chunk_seq"

/-- `Counter(c.get("chunk_seq") for c in chunks)` followed by the
duplicate-report loop: one finding per distinct key with count > 1, in
first-insertion order. -/
def dupBlock (chunks : List Chunk) : List StructureError :=
  let vals := chunks.map seqKeyOf
  (dedupFirst vals).filterMap
    (fun k =>
      if 2 ≤ vals.countP (fun x => x = k)
      then some (.duplicate_seq k (vals.countP (fun x => x = k))) else none)

/-- `c.get("chunk_seq", -1)` as an integer.  A present non-integer value
makes Python's `sorted` crash; the total model maps it to the same `-1`
default (theorems are stated on integer-valued data). -/
def intSeqOf (c : Chunk) : Int :=
  match jget c "chunk_seq" with
  | some (.int n) => n
  | _ => -1

def rangeInt (s : Int) (n : Nat) : List Int :=
  (List.range n).map (fun (i : Nat) => s + (i : Int))

/-- `chunk_seq` continuity: flag a non-zero start, then flag the values of
`set(expected) - set(seqs)` (reported sorted, which the increasing filtered
range realises) as one `seq_gap` finding. -/
def seqBlock (chunks : List Chunk) : List StructureError :=
  let seqs := (chunks.map intSeqOf).insertionSort (· ≤ ·)
  let s0 := seqs.headD 0
  (if s0 ≠ 0 then [StructureError.seq_not_zero s0] else [])
    ++ (let expected := rangeInt s0 seqs.length
        if seqs ≠ expected then
          (let missing := expected.filter (fun v => !seqs.contains v)
           if missing.isEmpty then [] else [StructureError.seq_gap missing])
        else [])

/-- The split object of a chunk, when `split` is present, non-null and an
object (a non-dict value crashes Python at `c["split"].get`). -/
def splitObjOf (c : Chunk) : Option (List (String × JValue)) :=
  match jgetNN c "split" with
  | some (.obj s) => some s
  | _ => none

/-- `c["split"].get("group_id", c.get("section_id", "?"))`. -/
def gidOf (c : Chunk) (s : List (String × JValue)) : JValue :=
  match jget s "group_id" with
  | some v => v
  | none => (jget c "section_id").getD (.str "?")

/-- Append an entry to the group of key `k`, keeping first-insertion key
order (`defaultdict(list)` semantics). -/
def groupInsert {β : Type} (groups : List (JValue × List β)) (k : JValue) (e : β) :
    List (JValue × List β) :=
  match groups with
  | [] => [(k, [e])]
  | (k2, es) :: rest =>
    if k2 = k then (k2, es ++ [e]) :: rest else (k2, es) :: groupInsert rest k e

def splitGroups (chunks : List Chunk) : List (JValue × List (Chunk × List (String × JValue))) :=
  chunks.foldl
    (fun gs c =>
      match splitObjOf c with
      | some s => groupInsert gs (gidOf c s) (c, s)
      | none => gs)
    []

def isIntJ : JValue → Bool
  | .int _ => true
  | _ => false

def getIntJ : JValue → Option Int
  | .int n => some n
  | _ => none

/-- Checks for one split group: shared `split_total`, member count, and the
`split_index` range.  A non-integer `split_total` crashes Python at
`range(...)` and a non-integer `split_index` at `sorted(...)`; the model
skips those comparisons. -/
def splitGroupFindings (gid : JValue) (group : List (Chunk × List (String × JValue))) :
    List StructureError :=
  let totals := dedupFirst (group.filterMap (fun p => jget p.2 "split_total"))
  (if 2 ≤ totals.length then [StructureError.split_total_mismatch gid] else [])
    ++ (match totals with
        | [JValue.int t] =>
          (if (group.length : Int) ≠ t then
            [StructureError.split_count_mismatch gid t group.length] else [])
          ++ (let idxRaw := group.filterMap (fun p => jget p.2 "split_index")
              if idxRaw.all isIntJ then
                (let indices := (idxRaw.filterMap getIntJ).insertionSort (· ≤ ·)
                 let expectedIdx := rangeInt 0 t.toNat
                 if indices ≠ expectedIdx then
                   [StructureError.split_index_gap gid expectedIdx indices] else [])
              else [])
        | _ => [])

def splitStructBlock (chunks : List Chunk) : List StructureError :=
  (splitGroups chunks).flatMap (fun p => splitGroupFindings p.1 p.2)

/-- `sid_to_si` accumulation: chunks with a truthy `section_id` and a
present non-null `section_index`, grouped by `section_id`. -/
def sectionGroups (chunks : List Chunk) : List (JValue × List JValue) :=
  chunks.foldl
    (fun gs c =>
      let sid := (jget c "section_id").getD .null
      match jgetNN c "section_index" with
      | some si => if jtruthy sid then groupInsert gs sid si else gs
      | none => gs)
    []

def sectionBlock (chunks : List Chunk) : List StructureError :=
  (sectionGroups chunks).filterMap
    (fun p => if 2 ≤ (dedupFirst p.2).length then some (.section_index_mismatch p.1) else none)

/-- Sort key of the prev/next walk: `c.get("chunk_seq", 0)` (note the `0`
default here, unlike the continuity check). -/
def linkKey (c : Chunk) : Int :=
  match jget c "chunk_seq" with
  | some (.int n) => n
  | _ => 0

def sortedChunks (chunks : List Chunk) : List Chunk :=
  chunks.insertionSort (fun a b => linkKey a ≤ linkKey b)

/-- The prev/next walk over the seq-sorted chunks: head/tail null-pointer
rule (warnings) and dangling-link membership tests (errors). -/
def linkAux (ids : List JValue) (n : Nat) (i : Nat) : List Chunk → List StructureError
  | [] => []
  | c :: rest =>
    let cid := (jget c "chunk_id").getD (.str "?")
    let prev := jgetNN c "prev_chunk_id"
    let nxt := jgetNN c "next_chunk_id"
    ((if i = 0 then
        (match prev with | some p => [StructureError.prev_chunk_id_error cid p] | none => [])
      else [])
      ++ (if i = n - 1 then
            (match nxt with | some q => [StructureError.next_chunk_id_error cid q] | none => [])
          else [])
      ++ (match prev with
          | some p => if ids.contains p then [] else [StructureError.prev_chunk_id_dangling cid p]
          | none => [])
      ++ (match nxt with
          | some q => if ids.contains q then [] else [StructureError.next_chunk_id_dangling cid q]
          | none => []))
    ++ linkAux ids n (i + 1) rest

def linkBlock (chunks : List Chunk) : List StructureError :=
  let sc := sortedChunks chunks
  linkAux (sc.map (fun c => (jget c "chunk_id").getD .null)) sc.length 0 sc

/-- `ChunkVerifier.verify_structure`: an empty collection yields no
findings; otherwise the five check groups run in source order. -/
def verify_structure (chunks : List Chunk) : List StructureError :=
  if chunks.isEmpty then []
  else
    dupBlock chunks ++ seqBlock chunks ++ splitStructBlock chunks
      ++ sectionBlock chunks ++ linkBlock chunks

-- === Tokenizers (ChunkVerifier._extract_words and the dot variant) ===

/-- Character class of `[가-힣a-zA-Z0-9]`: Hangul syllables, ASCII letters,
ASCII digits. -/
def isWordChar (c : Char) : Bool :=
  ('가' ≤ c && c ≤ '힣') || ('a' ≤ c && c ≤ 'z') || ('A' ≤ c && c ≤ 'Z') || ('0' ≤ c && c ≤ '9')

/-- Character class of `[가-힣a-zA-Z0-9.]` (the numeric-context variant that
keeps the decimal point inside tokens). -/
def isWordDotChar (c : Char) : Bool :=
  isWordChar c || c = '.'

/-- Fuel-driven worker of `extractRuns` (the fuel, always at least the list
length at the call sites, makes the recursion structural so that concrete
runs reduce in the kernel). -/
def extractRunsF (p : Char → Bool) : Nat → List Char → List (List Char)
  | 0, _ => []
  | _, [] => []
  | fuel + 1, c :: cs =>
    if p c then (c :: cs.takeWhile p) :: extractRunsF p fuel (cs.dropWhile p)
    else extractRunsF p fuel cs

/-- `re.findall(r'[C]+', text)`: the maximal runs of characters satisfying
`p`, in order of occurrence. -/
def extractRuns (p : Char → Bool) (l : List Char) : List (List Char) :=
  extractRunsF p l.length l

/-- `ChunkVerifier._extract_words`. -/
def extract_words (l : List Char) : List (List Char) :=
  extractRuns isWordChar l

-- === Sentence segmentation (ChunkVerifier._split_sentences) ===

/-- `str.strip()`. -/
def trimPy (l : List Char) : List Char :=
  ((l.dropWhile isPySpace).reverse.dropWhile isPySpace).reverse

/-- The lookbehind class `[가-힣a-zA-Z0-9\)）\]]` of the sentence-split
regex. -/
def isSentBoundaryChar (c : Char) : Bool :=
  isWordChar c || c = ')' || c = '）' || c = ']'

/-- `re.split(r'(?<=[가-힣a-zA-Z0-9\)）\]])\.(?:\s|$)', line)`: walk the
line; a `.` preceded by a boundary character and followed by one whitespace
character (consumed) or the end of the line ends the current part.  `acc`
holds the current part reversed, so its head is the character right before
the candidate dot. -/
def headBoundary (acc : List Char) : Bool :=
  match acc with
  | p :: _ => isSentBoundaryChar p
  | [] => false

def splitSentPartsF : Nat → List Char → List Char → List (List Char)
  | 0, acc, _ => [acc.reverse]
  | _, acc, [] => [acc.reverse]
  | _ + 1, acc, [c] =>
    if c = '.' && headBoundary acc then [acc.reverse, []]
    else [(c :: acc).reverse]
  | fuel + 1, acc, c :: w :: rest2 =>
    if c = '.' && headBoundary acc then
      (if isPySpace w then acc.reverse :: splitSentPartsF fuel [] rest2
       else splitSentPartsF fuel (c :: acc) (w :: rest2))
    else splitSentPartsF fuel (c :: acc) (w :: rest2)

def splitSentParts (acc : List Char) (l : List Char) : List (List Char) :=
  splitSentPartsF l.length acc l

/-- Python `text.split('\n')` (keeps empty pieces). -/
def splitOnNl : List Char → List (List Char)
  | [] => [[]]
  | c :: rest =>
    let r := splitOnNl rest
    if c = '\n' then [] :: r
    else
      match r with
      | h :: t => (c :: h) :: t
      | [] => [[c]]

/-- `ChunkVerifier._split_sentences`: split on line ends, strip, drop blank
lines, split each line at sentence-ending dots, strip and keep non-empty
parts. -/
def split_sentences (text : List Char) : List (List Char) :=
  (splitOnNl text).flatMap
    (fun line =>
      let line2 := trimPy line
      if line2.isEmpty then []
      else
        (splitSentParts [] line2).filterMap
          (fun part => let p2 := trimPy part; if p2.isEmpty then none else some p2))

-- === Numeric pattern extraction (ChunkVerifier._extract_numeric_patterns) ===

def isOpChar (c : Char) : Bool :=
  c = '≥' || c = '≤' || c = '>' || c = '<' || c = '±' || c = '~' || c = '약'

def isAsciiDigit (c : Char) : Bool := '0' ≤ c && c ≤ '9'

def isAsciiAlpha (c : Char) : Bool := ('a' ≤ c && c ≤ 'z') || ('A' ≤ c && c ≤ 'Z')

/-- The unit class `[a-zA-Z℃%°㎜㎝㎡㎥㎏㎐]`. -/
def isUnitChar (c : Char) : Bool :=
  isAsciiAlpha c || c = '℃' || c = '%' || c = '°' ||
    c = '㎜' || c = '㎝' || c = '㎡' || c = '㎥' || c = '㎏' || c = '㎐'

/-- One attempt of `_NUMERIC_RE` at the start of `s`:
`(operator)?\s*(value)\s*(unit)?` with a mandatory digit run.  Returns the
captured operator, value and unit together with the total number of
characters the match consumes (greedy, including trailing whitespace even
when no unit follows, exactly as the regex group 0 does). -/
def tryNumMatch (s : List Char) : Option (Option Char × List Char × List Char × Nat) :=
  let opStep : Option Char × List Char × Nat :=
    match s with
    | c :: rest => if isOpChar c then (some c, rest, 1) else (none, s, 0)
    | [] => (none, [], 0)
  let op := opStep.1
  let s1 := opStep.2.1
  let n1 := opStep.2.2
  let ws1 := s1.takeWhile isPySpace
  let s2 := s1.drop ws1.length
  let ds := s2.takeWhile isAsciiDigit
  if ds.isEmpty then none
  else
    let s3 := s2.drop ds.length
    let fracStep : List Char × List Char × Nat :=
      match s3 with
      | '.' :: r =>
        let fs := r.takeWhile isAsciiDigit
        if fs.isEmpty then (ds, s3, 0) else (ds ++ '.' :: fs, r.drop fs.length, 1 + fs.length)
      | _ => (ds, s3, 0)
    let value := fracStep.1
    let s4 := fracStep.2.1
    let nf := fracStep.2.2
    let ws2 := s4.takeWhile isPySpace
    let s5 := s4.drop ws2.length
    let unit := s5.takeWhile isUnitChar
    some (op, value, unit, n1 + ws1.length + ds.length + nf + ws2.length + unit.length)

/-- `finditer` of `_NUMERIC_RE`: try a match at every position, emit it with
the surrounding text, and resume after its end.  A successful match always
consumes at least the digit run, so `max n 1 = n`; the `max` only serves the
termination argument. -/
def numScanAuxF : Nat → List Char → List Char →
    List (List Char × Option Char × List Char × List Char × List Char × List Char)
  | 0, _, _ => []
  | _, _, [] => []
  | fuel + 1, pre, c :: rest2 =>
    match tryNumMatch (c :: rest2) with
    | some (op, value, unit, n) =>
      let consumed := (c :: rest2).take (max n 1)
      let rest3 := rest2.drop (max n 1 - 1)
      (pre.reverse, op, value, unit, consumed, rest3)
        :: numScanAuxF fuel (consumed.reverse ++ pre) rest3
    | none => numScanAuxF fuel (c :: pre) rest2

def numScanAux (pre rest : List Char) :
    List (List Char × Option Char × List Char × List Char × List Char × List Char) :=
  numScanAuxF rest.length pre rest

/-- One extracted numeric pattern (the dict built by
`_extract_numeric_patterns`); `operator`/`unit` keep `None` as
`none`/`[]`. -/
structure NumPattern where
  raw : List Char
  operator : Option Char
  value : List Char
  unit : List Char
  context_before : List (List Char)
  context_after : List (List Char)
  search_key : List Char
deriving DecidableEq

/-- `ChunkVerifier._extract_numeric_patterns`: keep the matches that carry
an operator or a unit, attach up to 2 context words on each side
(dot-including tokenizer), and build the search key
`join(ctx_before) + value + letters(unit) + join(ctx_after)`. -/
def extract_numeric_patterns (text : List Char) : List NumPattern :=
  (numScanAux [] text).filterMap
    (fun e =>
      let op := e.2.1
      let value := e.2.2.1
      let unit := e.2.2.2.1
      if op.isNone && unit.isEmpty then none
      else
        let wb := extractRuns isWordDotChar e.1
        let wa := extractRuns isWordDotChar e.2.2.2.2.2
        let ctxB := wb.drop (wb.length - 2)
        let ctxA := wa.take 2
        some
          { raw := trimPy e.2.2.2.2.1
            operator := op
            value := value
            unit := unit
            context_before := ctxB
            context_after := ctxA
            search_key := ctxB.flatten ++ value ++ unit.filter isAsciiAlpha ++ ctxA.flatten })

-- === Coverage and numeric verification ===

/-- Python substring membership `needle in hay` on character lists. -/
def prefOf : List Char → List Char → Bool
  | [], _ => true
  | _ :: _, [] => false
  | a :: as2, b :: bs => a = b && prefOf as2 bs

def substrOf (needle : List Char) : List Char → Bool
  | [] => needle.isEmpty
  | c :: rest => prefOf needle (c :: rest) || substrOf needle rest

/-- The text parts one chunk contributes to the match corpus: its `text`
(default `""`) followed by the entries of `section_path` (default `[]`).
Python would crash joining a non-string part; the model maps such parts to
the empty string. -/
def chunkTextParts (c : Chunk) : List (List Char) :=
  (match jget c "text" with | some (.str s) => s.data | _ => [])
    :: (match jget c "section_path" with
        | some (.arr xs) => xs.map (fun v => match v with | .str s => s.data | _ => [])
        | _ => [])

/-- `" ".flatten(parts)`. -/
def joinWithSpace : List (List Char) → List Char
  | [] => []
  | [x] => x
  | x :: rest => x ++ ' ' :: joinWithSpace rest

/-- `CoverageResult` dataclass; an unmatched entry keeps the stored pair
(100-character sentence preview, displayed last-5-words string). -/
structure CoverageResult where
  total_sentences : Nat
  matched_sentences : Nat
  skipped_sentences : Nat
  unmatched : List (List Char × List Char)
deriving DecidableEq

/-- `CoverageResult.coverage_pct`. -/
def coverage_pct (r : CoverageResult) : ℚ :=
  let checked := r.total_sentences - r.skipped_sentences
  if checked = 0 then 100 else (r.matched_sentences : ℚ) / (checked : ℚ) * 100

/-- `NumericResult` dataclass; an unmatched entry keeps the whole pattern
(the Python dict stores its fields plus the search key). -/
structure NumericResult where
  total_patterns : Nat
  matched_patterns : Nat
  skipped_patterns : Nat
  unmatched : List NumPattern
deriving DecidableEq

/-- `NumericResult.numeric_pct`. -/
def numeric_pct (r : NumericResult) : ℚ :=
  let checked := r.total_patterns - r.skipped_patterns
  if checked = 0 then 100 else (r.matched_patterns : ℚ) / (checked : ℚ) * 100

/-- The shared match-loop of `verify_coverage` / `verify_numerics`: walk the
items; an item without a key (too-short sentence) or whose key was already
seen is skipped; otherwise its key is checked once, counting a match or
recording an unmatched entry.  Returns (matched, skipped, unmatched). -/
def tallyAux {α E : Type} (keyOf : α → Option (List Char)) (entryOf : α → E)
    (matchB : List Char → Bool) (seen : List (List Char)) :
    List α → Nat × Nat × List E
  | [] => (0, 0, [])
  | a :: rest =>
    match keyOf a with
    | none =>
      let r := tallyAux keyOf entryOf matchB seen rest
      (r.1, r.2.1 + 1, r.2.2)
    | some k =>
      if k ∈ seen then
        let r := tallyAux keyOf entryOf matchB seen rest
        (r.1, r.2.1 + 1, r.2.2)
      else
        let r := tallyAux keyOf entryOf matchB (k :: seen) rest
        if matchB k then (r.1 + 1, r.2.1, r.2.2) else (r.1, r.2.1, entryOf a :: r.2.2)

/-- Fingerprint of a sentence: `none` when it has fewer than 5 tokens,
otherwise the separator-free join of its last 5 tokens. -/
def covKeyOf (s : List Char) : Option (List Char) :=
  let ws := extract_words s
  if ws.length < 5 then none else some ((ws.drop (ws.length - 5)).flatten)

/-- The unmatched entry stored for a sentence: preview of the stripped
sentence (first 100 characters) and the space-joined last 5 words. -/
def covEntryOf (s : List Char) : List Char × List Char :=
  let ws := extract_words s
  ((trimPy s).take 100, joinWithSpace (ws.drop (ws.length - 5)))

/-- `ChunkVerifier.verify_coverage`. -/
def verify_coverage (pdf_text : List Char) (chunks : List Chunk) : CoverageResult :=
  let sentences := split_sentences pdf_text
  let corpus := (extract_words (joinWithSpace (chunks.flatMap chunkTextParts))).flatten
  let r := tallyAux covKeyOf covEntryOf (fun k => substrOf k corpus) [] sentences
  ⟨sentences.length, r.1, r.2.1, r.2.2⟩

/-- `ChunkVerifier.verify_numerics` (the early return on an empty pattern
list produces the same all-zero result as the loop). -/
def verify_numerics (pdf_text : List Char) (chunks : List Chunk) : NumericResult :=
  let pats := extract_numeric_patterns pdf_text
  let corpus := (extractRuns isWordDotChar (joinWithSpace (chunks.flatMap chunkTextParts))).flatten
  let r := tallyAux (fun p : NumPattern => some p.search_key) id (fun k => substrOf k corpus) [] pats
  ⟨pats.length, r.1, r.2.1, r.2.2⟩

-- === Report aggregation (VerificationReport) ===

/-- `VerificationReport` (the `json_file` label is elided). -/
structure VerificationReport where
  total_chunks : Nat
  schema_errors : List SchemaError
  structure_errors : List StructureError
  coverage : Option CoverageResult
  numeric : Option NumericResult

/-- `VerificationReport.schema_ok`. -/
def schema_ok (r : VerificationReport) : Bool :=
  !(r.schema_errors.any (fun e => e.severity = "error"))

/-- `VerificationReport.structure_ok`. -/
def structure_ok (r : VerificationReport) : Bool :=
  !(r.structure_errors.any (fun e => structSeverity e = "error"))

/-- `VerificationReport.coverage_ok`: pass when coverage was not run. -/
def coverage_ok (r : VerificationReport) : Bool :=
  match r.coverage with
  | none => true
  | some c => decide ((90 : ℚ) ≤ coverage_pct c)

/-- `VerificationReport.numeric_ok`: pass when the numeric check was not
run. -/
def numeric_ok (r : VerificationReport) : Bool :=
  match r.numeric with
  | none => true
  | some n => decide ((90 : ℚ) ≤ numeric_pct n)

/-- `VerificationReport.all_ok`. -/
def all_ok (r : VerificationReport) : Bool :=
  schema_ok r && structure_ok r && coverage_ok r && numeric_ok r

/-- `ChunkVerifier.verify`: schema and structure always run; coverage and
numerics run when source text was supplied. -/
def verify (chunks : List Chunk) (pdf_text : Option (List Char)) : VerificationReport :=
  { total_chunks := chunks.length
    schema_errors := verify_schema chunks
    structure_errors := verify_structure chunks
    coverage := pdf_text.map (fun t => verify_coverage t chunks)
    numeric := pdf_text.map (fun t => verify_numerics t chunks) }

-- === Definitions used by the theorem statements ===

/-- The distinct keys a `tallyAux` run actually checks, relative to an
initial seen-set: first occurrences of keys of keyed items. -/
def newKeysAux {α : Type} (keyOf : α → Option (List Char)) (seen : List (List Char)) :
    List α → List (List Char)
  | [] => []
  | a :: rest =>
    match keyOf a with
    | none => newKeysAux keyOf seen rest
    | some k =>
      if k ∈ seen then newKeysAux keyOf seen rest
      else k :: newKeysAux keyOf (k :: seen) rest

/-- Fingerprint of a qualifying sentence: its last 5 tokens joined without
separators. -/
def covFp (s : List Char) : List Char :=
  ((extract_words s).drop ((extract_words s).length - 5)).flatten

/-- Does a structural finding report `duplicate_seq` for the integer value
`v`? -/
def isDupSeqFor (v : Int) : StructureError → Bool
  | .duplicate_seq (some (.int m)) _ => m = v
  | _ => false

def isSeqGapCon : StructureError → Bool
  | .seq_gap _ => true
  | _ => false

def isDupCon : StructureError → Bool
  | .duplicate_seq _ _ => true
  | _ => false

def isSeqCon : StructureError → Bool
  | .seq_not_zero _ => true
  | .seq_gap _ => true
  | _ => false

def isSplitCon : StructureError → Bool
  | .split_total_mismatch _ => true
  | .split_count_mismatch _ _ _ => true
  | .split_index_gap _ _ _ => true
  | _ => false

def isSectionCon : StructureError → Bool
  | .section_index_mismatch _ => true
  | _ => false

def isLinkCon : StructureError → Bool
  | .prev_chunk_id_error _ _ => true
  | .next_chunk_id_error _ _ => true
  | .prev_chunk_id_dangling _ _ => true
  | .next_chunk_id_dangling _ _ => true
  | _ => false

/-- Coarse family classifier of schema-finding fields: constant names map to
themselves, indexed families to a star pattern. -/
def fieldName : SchemaField → String
  | .flat n => n
  | .splitSub _ => "split.*"
  | .spanElem _ _ => "locators.spans[*"
  | .refElem _ _ => "references[*"
  | .okElem _ => "ontology_keywords[*"
  | .deElem _ _ => "domain_entities[*"
  | .tdElem _ _ => "tables_data.*"
  | .eqElem _ _ => "equations[*"

/-- Field families of the per-claim null-field questions. -/
def isRefsField (f : SchemaField) : Bool :=
  fieldName f = "references" || fieldName f = "references[*"

def isKeywordsField (f : SchemaField) : Bool :=
  fieldName f = "keywords"

def isDeField (f : SchemaField) : Bool :=
  fieldName f = "domain_entities" || fieldName f = "domain_entities[*"

def isOkField (f : SchemaField) : Bool :=
  fieldName f = "ontology_keywords" || fieldName f = "ontology_keywords[*"

def isSplitField (f : SchemaField) : Bool :=
  fieldName f = "split" || fieldName f = "split.*"

def isTdField (f : SchemaField) : Bool :=
  fieldName f = "tables_data" || fieldName f = "tables_data.*"

def isEqField (f : SchemaField) : Bool :=
  fieldName f = "equations" || fieldName f = "equations[*"

/-- The span-derived expected `page_start` (minimum of the collected
`doc_page_start` values). -/
def spanMin (xs : List JValue) : Int :=
  minD ((getIntsFor xs "doc_page_start").getD [])

/-- The span-derived expected `page_end` (maximum of the collected
`doc_page_end` values). -/
def spanMax (xs : List JValue) : Int :=
  maxD ((getIntsFor xs "doc_page_end").getD [])

/-- The coverage match corpus: word tokens of all chunk text joined without
separators. -/
def covCorpus (chunks : List Chunk) : List Char :=
  (extract_words (joinWithSpace (chunks.flatMap chunkTextParts))).flatten

/-- The numeric match corpus (dot-including tokens). -/
def numCorpus (chunks : List Chunk) : List Char :=
  (extractRuns isWordDotChar (joinWithSpace (chunks.flatMap chunkTextParts))).flatten

/-- A sentence with fewer than 5 tokens (skipped by the coverage check). -/
def shortSent (s : List Char) : Bool := decide ((extract_words s).length < 5)

/-- A sentence with at least 5 tokens (checked by the coverage check). -/
def qualSent (s : List Char) : Bool := decide (5 ≤ (extract_words s).length)

/-- The fingerprints of the qualifying sentences of a text, in order. -/
def covFps (text : List Char) : List (List Char) :=
  ((split_sentences text).filter qualSent).map covFp

/-- Number of chunks whose `chunk_seq` is the integer `v`. -/
def seqValCount (chunks : List Chunk) (v : Int) : Nat :=
  (chunks.map seqKeyOf).countP (fun x => x = some (JValue.int v))

/-- A concrete well-formed chunk used to evaluate the derived-page checks:
its single span covers document pages 2..3, its `page_start` agrees with the
span minimum and its `page_end` (5) disagrees with the span maximum (3). -/
def pageDemoChunk : Chunk :=
  [("locators", JValue.obj [("spans", JValue.arr
      [JValue.obj [("doc_page_start", JValue.int 2), ("doc_page_end", JValue.int 3)]])]),
   ("page_start", JValue.int 2), ("page_end", JValue.int 5)]

/-- The span list of `pageDemoChunk`. -/
def pageDemoSpans : List JValue :=
  [JValue.obj [("doc_page_start", JValue.int 2), ("doc_page_end", JValue.int 3)]]

/-- A chunk carrying every optional container field present with value
`null`, used to evaluate the null-field policy. -/
def nullDemoChunk : Chunk :=
  [("references", JValue.null), ("keywords", JValue.null),
   ("domain_entities", JValue.null), ("ontology_keywords", JValue.null),
   ("split", JValue.null), ("tables_data", JValue.null),
   ("equations", JValue.null)]

-- === General list lemmas ===

theorem filterMap_ite {α β : Type} (P : α → Bool) (g : α → β) (l : List α) :
    l.filterMap (fun a => if P a then some (g a) else none) = (l.filter P).map g := by
  induction l with
  | nil => rfl
  | cons a l ih =>
    by_cases h : P a = true <;> simp [List.filterMap_cons, List.filter_cons, h, ih]

theorem filterMap_if_prop {α β : Type} (P : α → Prop) [DecidablePred P] (g : α → β)
    (l : List α) :
    l.filterMap (fun a => if P a then some (g a) else none)
      = (l.filter (fun a => decide (P a))).map g := by
  induction l with
  | nil => rfl
  | cons a l ih =>
    by_cases h : P a <;> simp [List.filterMap_cons, List.filter_cons, h, ih]

theorem mem_dedupFirstAux {α : Type} [DecidableEq α] (l : List α) :
    ∀ (seen : List α) (x : α), x ∈ dedupFirstAux seen l ↔ x ∈ l ∧ x ∉ seen := by
  induction l with
  | nil => intro seen x; simp [dedupFirstAux]
  | cons a l ih =>
    intro seen x
    by_cases h : a ∈ seen
    · rw [dedupFirstAux, if_pos h, ih]
      constructor
      · rintro ⟨h1, h2⟩; exact ⟨List.mem_cons_of_mem a h1, h2⟩
      · rintro ⟨h1, h2⟩
        rcases List.mem_cons.mp h1 with rfl | h1
        · exact absurd h h2
        · exact ⟨h1, h2⟩
    · rw [dedupFirstAux, if_neg h]
      constructor
      · intro hx
        rcases List.mem_cons.mp hx with rfl | hx
        · exact ⟨List.mem_cons_self _ _, h⟩
        · rcases (ih _ _).mp hx with ⟨h1, h2⟩
          refine ⟨List.mem_cons_of_mem a h1, fun hs => h2 (List.mem_cons_of_mem a hs)⟩
      · rintro ⟨h1, h2⟩
        rcases List.mem_cons.mp h1 with rfl | h1
        · exact List.mem_cons_self _ _
        · by_cases hxa : x = a
          · subst hxa; exact List.mem_cons_self _ _
          · exact List.mem_cons_of_mem a ((ih _ _).mpr ⟨h1, by
              intro hs
              rcases List.mem_cons.mp hs with h3 | h3
              · exact hxa h3
              · exact h2 h3⟩)

theorem nodup_dedupFirstAux {α : Type} [DecidableEq α] (l : List α) :
    ∀ seen : List α, (dedupFirstAux seen l).Nodup := by
  induction l with
  | nil => intro seen; simp [dedupFirstAux]
  | cons a l ih =>
    intro seen
    by_cases h : a ∈ seen
    · rw [dedupFirstAux, if_pos h]; exact ih seen
    · rw [dedupFirstAux, if_neg h]
      refine List.nodup_cons.mpr ⟨fun hmem => ?_, ih _⟩
      exact ((mem_dedupFirstAux l _ a).mp hmem).2 (List.mem_cons_self _ _)

theorem length_dedupFirstAux_le {α : Type} [DecidableEq α] (l : List α) :
    ∀ seen : List α, (dedupFirstAux seen l).length ≤ l.length := by
  induction l with
  | nil => intro seen; simp [dedupFirstAux]
  | cons a l ih =>
    intro seen
    by_cases h : a ∈ seen
    · rw [dedupFirstAux, if_pos h]
      exact Nat.le_succ_of_le (ih seen)
    · rw [dedupFirstAux, if_neg h]
      simpa using ih (a :: seen)

theorem mem_dedupFirst {α : Type} [DecidableEq α] (l : List α) (x : α) :
    x ∈ dedupFirst l ↔ x ∈ l := by
  rw [dedupFirst, mem_dedupFirstAux]; simp

theorem nodup_dedupFirst {α : Type} [DecidableEq α] (l : List α) :
    (dedupFirst l).Nodup :=
  nodup_dedupFirstAux l []

theorem length_dedupFirst_le {α : Type} [DecidableEq α] (l : List α) :
    (dedupFirst l).length ≤ l.length :=
  length_dedupFirstAux_le l []

/-- Over a list without duplicates, a predicate that forces its argument to
equal `t` counts to 1 or 0. -/
theorem countP_nodup_key {α : Type} [DecidableEq α] (l : List α) (hl : l.Nodup)
    (t : α) (c : α → Bool) :
    l.countP (fun a => a = t && c a) = if t ∈ l ∧ c t = true then 1 else 0 := by
  induction l with
  | nil => simp
  | cons a l ih =>
    rcases List.nodup_cons.mp hl with ⟨hna, hnd⟩
    rw [List.countP_cons, ih hnd]
    by_cases hat : a = t
    · subst hat
      by_cases hc : c a = true
      · simp [hc, hna]
      · simp [hc]
    · have hpa : (decide (a = t) && c a) = false := by simp [hat]
      rw [hpa]
      have hmem : ((t = a ∨ t ∈ l) ∧ c t = true) ↔ (t ∈ l ∧ c t = true) := by
        constructor
        · rintro ⟨h1, h2⟩
          rcases h1 with h3 | h3
          · exact absurd h3.symm hat
          · exact ⟨h3, h2⟩
        · rintro ⟨h1, h2⟩
          exact ⟨Or.inr h1, h2⟩
      simp [hmem]

/-- Same statement for `filter`. -/
theorem filter_nodup_key {α : Type} [DecidableEq α] (l : List α) (hl : l.Nodup)
    (t : α) (c : α → Bool) :
    l.filter (fun a => a = t && c a) = if t ∈ l ∧ c t = true then [t] else [] := by
  induction l with
  | nil => simp
  | cons a l ih =>
    rcases List.nodup_cons.mp hl with ⟨hna, hnd⟩
    rw [List.filter_cons, ih hnd]
    by_cases hat : a = t
    · subst hat
      by_cases hc : c a = true
      · simp [hc, hna]
      · simp [hc]
    · have hpa : (decide (a = t) && c a) = false := by simp [hat]
      rw [hpa]
      have hmem : ((t = a ∨ t ∈ l) ∧ c t = true) ↔ (t ∈ l ∧ c t = true) := by
        constructor
        · rintro ⟨h1, h2⟩
          rcases h1 with h3 | h3
          · exact absurd h3.symm hat
          · exact ⟨h3, h2⟩
        · rintro ⟨h1, h2⟩
          exact ⟨Or.inr h1, h2⟩
      simp [hmem]

theorem mem_idxAux {f : Nat → JValue → List SchemaError} :
    ∀ {rs : List JValue} {k : Nat} {e : SchemaError},
      e ∈ idxAux f k rs ↔ ∃ j x, rs.get? j = some x ∧ e ∈ f (k + j) x := by
  intro rs
  induction rs with
  | nil => intro k e; simp [idxAux]
  | cons a rs ih =>
    intro k e
    rw [idxAux, List.mem_append, ih]
    constructor
    · rintro (h | ⟨j, x, hj, hx⟩)
      · exact ⟨0, a, rfl, by simpa using h⟩
      · exact ⟨j + 1, x, by simpa using hj, by
          have : k + 1 + j = k + (j + 1) := by omega
          rwa [this] at hx⟩
    · rintro ⟨j, x, hj, hx⟩
      cases j with
      | zero =>
        left
        simp only [List.get?_cons_zero, Option.some.injEq] at hj
        subst hj
        simpa using hx
      | succ j =>
        right
        refine ⟨j, x, by simpa using hj, ?_⟩
        have : k + (j + 1) = k + 1 + j := by omega
        rwa [this] at hx

-- === Properties of the shared match loop ===

theorem tallyAux_partition {α E : Type} (keyOf : α → Option (List Char)) (entryOf : α → E)
    (matchB : List Char → Bool) :
    ∀ (l : List α) (seen : List (List Char)),
      (tallyAux keyOf entryOf matchB seen l).1
        + (tallyAux keyOf entryOf matchB seen l).2.1
        + (tallyAux keyOf entryOf matchB seen l).2.2.length = l.length := by
  intro l
  induction l with
  | nil => intro seen; simp [tallyAux]
  | cons a l ih =>
    intro seen
    rcases hk : keyOf a with _ | k
    · have hrec := ih seen
      simp only [tallyAux, hk, List.length_cons]
      all_goals omega
    · by_cases hs : k ∈ seen
      · have hrec := ih seen
        simp only [tallyAux, hk, if_pos hs, List.length_cons]
        all_goals omega
      · have hrec := ih (k :: seen)
        by_cases hm : matchB k = true <;>
          simp only [tallyAux, hk, if_neg hs, hm, if_true, if_false, Bool.false_eq_true,
            List.length_cons] <;>
          all_goals omega

theorem newKeysAux_eq_dedup {α : Type} (keyOf : α → Option (List Char)) :
    ∀ (l : List α) (seen : List (List Char)),
      newKeysAux keyOf seen l = dedupFirstAux seen (l.filterMap keyOf) := by
  intro l
  induction l with
  | nil => intro seen; simp [newKeysAux, dedupFirstAux]
  | cons a l ih =>
    intro seen
    rcases hk : keyOf a with _ | k
    · simp only [newKeysAux, hk, List.filterMap_cons]
      exact ih seen
    · by_cases hs : k ∈ seen
      · simp only [newKeysAux, hk, List.filterMap_cons, dedupFirstAux, if_pos hs]
        exact ih seen
      · simp only [newKeysAux, hk, List.filterMap_cons, dedupFirstAux, if_neg hs]
        rw [ih (k :: seen)]

theorem newKeysAux_length_le {α : Type} (keyOf : α → Option (List Char)) :
    ∀ (l : List α) (seen : List (List Char)),
      (newKeysAux keyOf seen l).length ≤ l.length := by
  intro l
  induction l with
  | nil => intro seen; simp [newKeysAux]
  | cons a l ih =>
    intro seen
    rcases hk : keyOf a with _ | k
    · simp only [newKeysAux, hk, List.length_cons]
      exact Nat.le_succ_of_le (ih seen)
    · by_cases hs : k ∈ seen
      · simp only [newKeysAux, hk, if_pos hs, List.length_cons]
        exact Nat.le_succ_of_le (ih seen)
      · simp only [newKeysAux, hk, if_neg hs, List.length_cons]
        exact Nat.succ_le_succ (ih (k :: seen))

theorem tallyAux_matched {α E : Type} (keyOf : α → Option (List Char)) (entryOf : α → E)
    (matchB : List Char → Bool) :
    ∀ (l : List α) (seen : List (List Char)),
      (tallyAux keyOf entryOf matchB seen l).1
        = (newKeysAux keyOf seen l).countP matchB := by
  intro l
  induction l with
  | nil => intro seen; simp [tallyAux, newKeysAux]
  | cons a l ih =>
    intro seen
    rcases hk : keyOf a with _ | k
    · simp only [tallyAux, hk, newKeysAux]
      exact ih seen
    · by_cases hs : k ∈ seen
      · simp only [tallyAux, hk, newKeysAux, if_pos hs]
        exact ih seen
      · have hrec := ih (k :: seen)
        by_cases hm : matchB k = true <;>
          simp only [tallyAux, hk, newKeysAux, if_neg hs, hm, if_true, if_false,
            Bool.false_eq_true, List.countP_cons, hrec] <;>
          all_goals omega

theorem tallyAux_unmatched {α E : Type} (keyOf : α → Option (List Char)) (entryOf : α → E)
    (matchB : List Char → Bool) :
    ∀ (l : List α) (seen : List (List Char)),
      (tallyAux keyOf entryOf matchB seen l).2.2.length
        = (newKeysAux keyOf seen l).countP (fun k => !matchB k) := by
  intro l
  induction l with
  | nil => intro seen; simp [tallyAux, newKeysAux]
  | cons a l ih =>
    intro seen
    rcases hk : keyOf a with _ | k
    · simp only [tallyAux, hk, newKeysAux]
      exact ih seen
    · by_cases hs : k ∈ seen
      · simp only [tallyAux, hk, newKeysAux, if_pos hs]
        exact ih seen
      · have hrec := ih (k :: seen)
        by_cases hm : matchB k = true <;>
          simp only [tallyAux, hk, newKeysAux, if_neg hs, hm, if_true, if_false,
            Bool.false_eq_true, Bool.not_true, Bool.not_false, List.countP_cons,
            List.length_cons, hrec] <;>
          all_goals omega

theorem tallyAux_skipped {α E : Type} (keyOf : α → Option (List Char)) (entryOf : α → E)
    (matchB : List Char → Bool) (l : List α) (seen : List (List Char)) :
    (tallyAux keyOf entryOf matchB seen l).2.1
      = l.length - (newKeysAux keyOf seen l).length := by
  have hpart := tallyAux_partition keyOf entryOf matchB l seen
  have hm := tallyAux_matched keyOf entryOf matchB l seen
  have hu := tallyAux_unmatched keyOf entryOf matchB l seen
  have hcount : (newKeysAux keyOf seen l).countP matchB
      + (newKeysAux keyOf seen l).countP (fun k => !matchB k)
      = (newKeysAux keyOf seen l).length := by
    rw [List.length_eq_countP_add_countP matchB]
    congr 1
    apply List.countP_congr
    intro x _
    simp
  omega

/-- C10: after any coverage run, matched + skipped + |unmatched| equals the
sentence total, and after any numeric run, matched + skipped + |unmatched|
equals the pattern total: every sentence and every retained pattern lands in
exactly one bucket. -/
theorem coverage_numeric_counts_partition (text : List Char) (chunks : List Chunk) :
    ((verify_coverage text chunks).matched_sentences
        + (verify_coverage text chunks).skipped_sentences
        + (verify_coverage text chunks).unmatched.length
      = (verify_coverage text chunks).total_sentences) ∧
    ((verify_numerics text chunks).matched_patterns
        + (verify_numerics text chunks).skipped_patterns
        + (verify_numerics text chunks).unmatched.length
      = (verify_numerics text chunks).total_patterns) := by
  constructor
  · have h := tallyAux_partition covKeyOf covEntryOf
      (fun k => substrOf k ((extract_words (joinWithSpace (chunks.flatMap chunkTextParts))).flatten))
      (split_sentences text) []
    simpa [verify_coverage] using h
  · have h := tallyAux_partition (fun p : NumPattern => some p.search_key) id
      (fun k => substrOf k
        ((extractRuns isWordDotChar (joinWithSpace (chunks.flatMap chunkTextParts))).flatten))
      (extract_numeric_patterns text) []
    simpa [verify_numerics] using h

/-- C1: the overall verdict passes iff there is no error-severity schema
finding, no error-severity structural finding, the coverage percentage is at
least 90 unless coverage was not run, and the numeric percentage is at least
90 unless the numeric check was not run; prepending a warning-severity
finding of either kind never changes the verdict. -/
theorem all_ok_characterization (r : VerificationReport) :
    (all_ok r = true ↔
      ((∀ e ∈ r.schema_errors, e.severity ≠ "error") ∧
       (∀ e ∈ r.structure_errors, structSeverity e ≠ "error") ∧
       (∀ cov, r.coverage = some cov → (90 : ℚ) ≤ coverage_pct cov) ∧
       (∀ num, r.numeric = some num → (90 : ℚ) ≤ numeric_pct num))) ∧
    (∀ w : SchemaError, w.severity = "warning" →
      all_ok { r with schema_errors := w :: r.schema_errors } = all_ok r) ∧
    (∀ w : StructureError, structSeverity w = "warning" →
      all_ok { r with structure_errors := w :: r.structure_errors } = all_ok r) := by
  have hs : ∀ l : List SchemaError,
      (!(l.any (fun e => e.severity = "error"))) = true ↔ (∀ e ∈ l, e.severity ≠ "error") := by
    intro l
    simp [List.any_eq_true]
  have hst : ∀ l : List StructureError,
      (!(l.any (fun e => structSeverity e = "error"))) = true ↔
        (∀ e ∈ l, structSeverity e ≠ "error") := by
    intro l
    simp [List.any_eq_true]
  have hcov : coverage_ok r = true ↔
      (∀ cov, r.coverage = some cov → (90 : ℚ) ≤ coverage_pct cov) := by
    rcases hc : r.coverage with _ | cov
    · simp [coverage_ok, hc]
    · simp [coverage_ok, hc]
  have hnum : numeric_ok r = true ↔
      (∀ num, r.numeric = some num → (90 : ℚ) ≤ numeric_pct num) := by
    rcases hn : r.numeric with _ | num
    · simp [numeric_ok, hn]
    · simp [numeric_ok, hn]
  refine ⟨?_, ?_, ?_⟩
  · rw [all_ok, Bool.and_eq_true, Bool.and_eq_true, Bool.and_eq_true]
    rw [schema_ok, structure_ok]
    rw [hs r.schema_errors, hst r.structure_errors]
    constructor
    · rintro ⟨⟨⟨h1, h2⟩, h3⟩, h4⟩
      exact ⟨h1, h2, hcov.mp h3, hnum.mp h4⟩
    · rintro ⟨h1, h2, h3, h4⟩
      exact ⟨⟨⟨h1, h2⟩, hcov.mpr h3⟩, hnum.mpr h4⟩
  · intro w hw
    have hany : ((w :: r.schema_errors).any (fun e => e.severity = "error"))
        = (r.schema_errors.any (fun e => e.severity = "error")) := by
      simp [List.any_cons, hw]
    simp [all_ok, schema_ok, structure_ok, coverage_ok, numeric_ok, hany]
  · intro w hw
    have hany : ((w :: r.structure_errors).any (fun e => structSeverity e = "error"))
        = (r.structure_errors.any (fun e => structSeverity e = "error")) := by
      simp [List.any_cons, hw]
    simp [all_ok, schema_ok, structure_ok, coverage_ok, numeric_ok, hany]

/-- Closed instance of `all_ok_characterization`: a report whose only
findings are warnings passes. -/
theorem all_ok_characterization_witness :
    all_ok
      { total_chunks := 1
        schema_errors := [⟨JValue.int 0, JValue.str "c0", SchemaField.flat "keywords", "warning"⟩]
        structure_errors := [StructureError.prev_chunk_id_error (JValue.str "c0") (JValue.str "x")]
        coverage := none
        numeric := none } = true := by
  refine (all_ok_characterization _).1.mpr ⟨by decide, by decide, ?_, ?_⟩
  · intro cov h
    cases h
  · intro num h
    cases h

theorem filterMap_covKeyOf (l : List (List Char)) :
    l.filterMap covKeyOf = (l.filter qualSent).map covFp := by
  induction l with
  | nil => rfl
  | cons a l ih =>
    by_cases h : (extract_words a).length < 5
    · have h2 : ¬ 5 ≤ (extract_words a).length := by omega
      simp [List.filterMap_cons, List.filter_cons, covKeyOf, qualSent, h, h2, ih]
    · have h2 : 5 ≤ (extract_words a).length := by omega
      simp [List.filterMap_cons, List.filter_cons, covKeyOf, covFp, qualSent, h, h2, ih]

theorem newKeys_cov (text : List Char) :
    newKeysAux covKeyOf [] (split_sentences text) = dedupFirst (covFps text) := by
  rw [newKeysAux_eq_dedup, dedupFirst, filterMap_covKeyOf, covFps]

/-- C6: the coverage checker counts each sentence with fewer than 5 tokens
as skipped; among qualifying sentences sharing a trailing-5-token
fingerprint exactly one is checked (the matched and unmatched counts
together enumerate the distinct fingerprints, matched being those that occur
in the corpus) and every later duplicate is skipped; and the coverage
percentage is matched / (total - skipped) * 100, defined as 100 when
total - skipped = 0. -/
theorem coverage_sentence_accounting (text : List Char) (chunks : List Chunk) :
    (verify_coverage text chunks).total_sentences = (split_sentences text).length ∧
    (verify_coverage text chunks).skipped_sentences
      = (split_sentences text).countP shortSent
        + ((covFps text).length - (dedupFirst (covFps text)).length) ∧
    (verify_coverage text chunks).matched_sentences
      = (dedupFirst (covFps text)).countP (fun k => substrOf k (covCorpus chunks)) ∧
    (verify_coverage text chunks).matched_sentences
        + (verify_coverage text chunks).unmatched.length
      = (dedupFirst (covFps text)).length ∧
    coverage_pct (verify_coverage text chunks)
      = (if (verify_coverage text chunks).total_sentences
            - (verify_coverage text chunks).skipped_sentences = 0 then (100 : ℚ)
         else ((verify_coverage text chunks).matched_sentences : ℚ)
            / (((verify_coverage text chunks).total_sentences
                - (verify_coverage text chunks).skipped_sentences : Nat) : ℚ) * 100) := by
  have hmatched : (verify_coverage text chunks).matched_sentences
      = (tallyAux covKeyOf covEntryOf (fun k => substrOf k (covCorpus chunks)) []
          (split_sentences text)).1 := rfl
  have hskipped : (verify_coverage text chunks).skipped_sentences
      = (tallyAux covKeyOf covEntryOf (fun k => substrOf k (covCorpus chunks)) []
          (split_sentences text)).2.1 := rfl
  have hunmatched : (verify_coverage text chunks).unmatched
      = (tallyAux covKeyOf covEntryOf (fun k => substrOf k (covCorpus chunks)) []
          (split_sentences text)).2.2 := rfl
  have hfpslen : (covFps text).length = (split_sentences text).countP qualSent := by
    rw [covFps, List.length_map, ← List.countP_eq_length_filter]
  have hlensplit : (split_sentences text).length
      = (split_sentences text).countP shortSent + (covFps text).length := by
    rw [hfpslen, List.length_eq_countP_add_countP shortSent]
    congr 1
    apply List.countP_congr
    intro s _
    simp [shortSent, qualSent]
  have hdle : (dedupFirst (covFps text)).length ≤ (covFps text).length :=
    length_dedupFirst_le _
  refine ⟨rfl, ?_, ?_, ?_, rfl⟩
  · rw [hskipped, tallyAux_skipped, newKeys_cov]
    omega
  · rw [hmatched, tallyAux_matched, newKeys_cov]
  · rw [hmatched, hunmatched, tallyAux_matched, tallyAux_unmatched, newKeys_cov]
    rw [List.length_eq_countP_add_countP (fun k => substrOf k (covCorpus chunks))]
    congr 1
    apply List.countP_congr
    intro k _
    simp

theorem filterMap_someKey (l : List NumPattern) :
    l.filterMap (fun p => some p.search_key) = l.map NumPattern.search_key := by
  induction l with
  | nil => rfl
  | cons a l ih => simp [List.filterMap_cons, ih]

theorem newKeys_num (text : List Char) :
    newKeysAux (fun p : NumPattern => some p.search_key) [] (extract_numeric_patterns text)
      = dedupFirst ((extract_numeric_patterns text).map NumPattern.search_key) := by
  rw [newKeysAux_eq_dedup, dedupFirst, filterMap_someKey]

/-- C7 (counterexample): in
`"가나 ~3 다 라 가 나 ~3 다 라"` the value `3` occurs twice with distinct
context-word pairs (`["가나"]` versus `["가","나"]` before), yet the two
search keys coincide (`"가나3다라"`), and the numeric checker then skips the
second occurrence instead of matching it independently — refuting the claim
that distinct context-word pairs always produce distinct search keys. -/
theorem numeric_context_pair_collision :
    ((extract_numeric_patterns ("가나 ~3 다 라 가 나 ~3 다 라".data)).map
        (fun p => (p.value, p.context_before, p.context_after, p.search_key)))
      = [("3".data, ["가나".data], ["다".data, "라".data], "가나3다라".data),
         ("3".data, ["가".data, "나".data], ["다".data, "라".data], "가나3다라".data)] ∧
    ["가나".data] ≠ ["가".data, "나".data] ∧
    (verify_numerics ("가나 ~3 다 라 가 나 ~3 다 라".data) []).total_patterns = 2 ∧
    (verify_numerics ("가나 ~3 다 라 가 나 ~3 다 라".data) []).skipped_patterns = 1 := by
  decide

theorem countP_eq_one_of_nodup_mem {α : Type} [DecidableEq α] (l : List α)
    (h : l.Nodup) (t : α) (ht : t ∈ l) :
    l.countP (fun a => a = t) = 1 := by
  have h2 := countP_nodup_key l h t (fun _ => true)
  simp only [Bool.and_true, ht, and_true, if_pos, true_and] at h2
  simpa using h2

/-- C7 (amended): two occurrences of the same numeric value whose search
keys (before-context + value + letter unit + after-context concatenations)
differ are checked independently: both keys enter the distinct-key list
exactly once, and the matched / unmatched totals count every distinct key by
its own substring test against the chunk corpus. -/
theorem numeric_distinct_keys_independent (text : List Char) (chunks : List Chunk)
    (i j : Nat) (kp kq v : List Char)
    (hki : (((extract_numeric_patterns text).map NumPattern.search_key)).get? i = some kp)
    (hkj : (((extract_numeric_patterns text).map NumPattern.search_key)).get? j = some kq)
    (hvi : (((extract_numeric_patterns text).map NumPattern.value)).get? i = some v)
    (hvj : (((extract_numeric_patterns text).map NumPattern.value)).get? j = some v)
    (hk : kp ≠ kq) :
    kp ∈ dedupFirst ((extract_numeric_patterns text).map NumPattern.search_key) ∧
    kq ∈ dedupFirst ((extract_numeric_patterns text).map NumPattern.search_key) ∧
    (dedupFirst ((extract_numeric_patterns text).map NumPattern.search_key)).countP
        (fun x => x = kp) = 1 ∧
    (dedupFirst ((extract_numeric_patterns text).map NumPattern.search_key)).countP
        (fun x => x = kq) = 1 ∧
    (verify_numerics text chunks).matched_patterns
      = (dedupFirst ((extract_numeric_patterns text).map NumPattern.search_key)).countP
          (fun k => substrOf k (numCorpus chunks)) ∧
    (verify_numerics text chunks).unmatched.length
      = (dedupFirst ((extract_numeric_patterns text).map NumPattern.search_key)).countP
          (fun k => !substrOf k (numCorpus chunks)) := by
  have hmemp : kp ∈ (extract_numeric_patterns text).map NumPattern.search_key :=
    List.get?_mem hki
  have hmemq : kq ∈ (extract_numeric_patterns text).map NumPattern.search_key :=
    List.get?_mem hkj
  have hdp : kp ∈ dedupFirst ((extract_numeric_patterns text).map NumPattern.search_key) :=
    (mem_dedupFirst _ _).mpr hmemp
  have hdq : kq ∈ dedupFirst ((extract_numeric_patterns text).map NumPattern.search_key) :=
    (mem_dedupFirst _ _).mpr hmemq
  have hnd := nodup_dedupFirst ((extract_numeric_patterns text).map NumPattern.search_key)
  have hmatched : (verify_numerics text chunks).matched_patterns
      = (tallyAux (fun p : NumPattern => some p.search_key) id
          (fun k => substrOf k (numCorpus chunks)) [] (extract_numeric_patterns text)).1 := rfl
  have hunmatched : (verify_numerics text chunks).unmatched
      = (tallyAux (fun p : NumPattern => some p.search_key) id
          (fun k => substrOf k (numCorpus chunks)) [] (extract_numeric_patterns text)).2.2 := rfl
  refine ⟨hdp, hdq, countP_eq_one_of_nodup_mem _ hnd _ hdp, countP_eq_one_of_nodup_mem _ hnd _ hdq, ?_, ?_⟩
  · rw [hmatched, tallyAux_matched, newKeys_num]
  · rw [hunmatched, tallyAux_unmatched, newKeys_num]

/-- Closed instance of `numeric_distinct_keys_independent` on
`"가 ~3 나 다 ~3 라"`, whose two occurrences of `3` have the distinct keys
`"가3나다"` and `"나다3라"`. -/
theorem numeric_distinct_keys_independent_witness :
    "가3나다".data ∈ dedupFirst ((extract_numeric_patterns ("가 ~3 나 다 ~3 라".data)).map
        NumPattern.search_key) ∧
    "나다3라".data ∈ dedupFirst ((extract_numeric_patterns ("가 ~3 나 다 ~3 라".data)).map
        NumPattern.search_key) ∧
    (dedupFirst ((extract_numeric_patterns ("가 ~3 나 다 ~3 라".data)).map
        NumPattern.search_key)).countP (fun x => x = "가3나다".data) = 1 ∧
    (dedupFirst ((extract_numeric_patterns ("가 ~3 나 다 ~3 라".data)).map
        NumPattern.search_key)).countP (fun x => x = "나다3라".data) = 1 ∧
    (verify_numerics ("가 ~3 나 다 ~3 라".data) []).matched_patterns
      = (dedupFirst ((extract_numeric_patterns ("가 ~3 나 다 ~3 라".data)).map
          NumPattern.search_key)).countP (fun k => substrOf k (numCorpus [])) ∧
    (verify_numerics ("가 ~3 나 다 ~3 라".data) []).unmatched.length
      = (dedupFirst ((extract_numeric_patterns ("가 ~3 나 다 ~3 라".data)).map
          NumPattern.search_key)).countP (fun k => !substrOf k (numCorpus [])) := by
  exact numeric_distinct_keys_independent ("가 ~3 나 다 ~3 라".data) [] 0 1
    ("가3나다".data) ("나다3라".data) ("3".data)
    (by decide) (by decide) (by decide) (by decide) (by decide)

-- === Tokenizer theory (for C2) ===

theorem extractRunsF_congr (p : Char → Bool) :
    ∀ (f1 : Nat) (l : List Char) (f2 : Nat), l.length ≤ f1 → l.length ≤ f2 →
      extractRunsF p f1 l = extractRunsF p f2 l := by
  intro f1
  induction f1 with
  | zero =>
    intro l f2 h1 _
    have hl : l = [] := List.eq_nil_of_length_eq_zero (Nat.le_zero.mp h1)
    subst hl
    cases f2 <;> rfl
  | succ f ih =>
    intro l f2 h1 h2
    cases l with
    | nil => cases f2 <;> rfl
    | cons c cs =>
      cases f2 with
      | zero => simp at h2
      | succ g =>
        simp only [List.length_cons, Nat.succ_le_succ_iff] at h1 h2
        simp only [extractRunsF]
        by_cases hc : p c = true
        · rw [if_pos hc, if_pos hc,
            ih (cs.dropWhile p) g
              (Nat.le_trans (List.Sublist.length_le (List.dropWhile_sublist p)) h1)
              (Nat.le_trans (List.Sublist.length_le (List.dropWhile_sublist p)) h2)]
        · rw [if_neg hc, if_neg hc, ih cs g h1 h2]

theorem extractRuns_cons (p : Char → Bool) (c : Char) (cs : List Char) :
    extractRuns p (c :: cs)
      = if p c then (c :: cs.takeWhile p) :: extractRuns p (cs.dropWhile p)
        else extractRuns p cs := by
  rw [extractRuns, List.length_cons, extractRunsF]
  by_cases hc : p c = true
  · rw [if_pos hc, if_pos hc, extractRuns]
    rw [extractRunsF_congr p cs.length (cs.dropWhile p) (cs.dropWhile p).length
      (List.Sublist.length_le (List.dropWhile_sublist p)) (Nat.le_refl _)]
  · rw [if_neg hc, if_neg hc, extractRuns]

theorem extractRuns_tokens (p : Char → Bool) :
    ∀ (n : Nat) (l : List Char), l.length ≤ n →
      ∀ t ∈ extractRuns p l, t ≠ [] ∧ t.all p = true := by
  intro n
  induction n with
  | zero =>
    intro l h t ht
    have hl : l = [] := List.eq_nil_of_length_eq_zero (Nat.le_zero.mp h)
    subst hl
    simp [extractRuns, extractRunsF] at ht
  | succ n ih =>
    intro l h t ht
    cases l with
    | nil => simp [extractRuns, extractRunsF] at ht
    | cons c cs =>
      simp only [List.length_cons, Nat.succ_le_succ_iff] at h
      rw [extractRuns_cons] at ht
      by_cases hc : p c = true
      · rw [if_pos hc] at ht
        rcases List.mem_cons.mp ht with rfl | ht2
        · refine ⟨by simp, ?_⟩
          rw [List.all_cons, hc, Bool.true_and, List.all_eq_true]
          intro x hx
          exact List.mem_takeWhile_imp hx
        · exact ih (cs.dropWhile p)
            (Nat.le_trans (List.Sublist.length_le (List.dropWhile_sublist p)) h) t ht2
      · rw [if_neg hc] at ht
        exact ih cs h t ht

theorem extractRuns_flatten (p : Char → Bool) :
    ∀ (n : Nat) (l : List Char), l.length ≤ n →
      (extractRuns p l).flatten = l.filter p := by
  intro n
  induction n with
  | zero =>
    intro l h
    have hl : l = [] := List.eq_nil_of_length_eq_zero (Nat.le_zero.mp h)
    subst hl
    rfl
  | succ n ih =>
    intro l h
    cases l with
    | nil => rfl
    | cons c cs =>
      simp only [List.length_cons, Nat.succ_le_succ_iff] at h
      rw [extractRuns_cons, List.filter_cons]
      by_cases hc : p c = true
      · rw [if_pos hc, if_pos hc, List.flatten_cons,
          ih (cs.dropWhile p)
            (Nat.le_trans (List.Sublist.length_le (List.dropWhile_sublist p)) h)]
        have hsplit : cs.filter p = cs.takeWhile p ++ (cs.dropWhile p).filter p := by
          conv_lhs => rw [← @List.takeWhile_append_dropWhile _ p cs]
          rw [List.filter_append, List.filter_eq_self.mpr]
          intro x hx
          exact List.mem_takeWhile_imp hx
        rw [hsplit]
        simp
      · rw [if_neg hc, if_neg hc, ih cs h]

theorem takeWhile_append_sep (p : Char → Bool) (s : Char) (hs : p s = false) (l2 : List Char) :
    ∀ l1 : List Char, (l1 ++ s :: l2).takeWhile p = l1.takeWhile p := by
  intro l1
  induction l1 with
  | nil => simp [List.takeWhile, hs]
  | cons c cs ih =>
    by_cases hc : p c = true
    · simp only [List.cons_append, List.takeWhile_cons, hc, if_true, ih]
    · simp only [List.cons_append, List.takeWhile_cons, hc]
      simp

theorem dropWhile_append_sep (p : Char → Bool) (s : Char) (hs : p s = false) (l2 : List Char) :
    ∀ l1 : List Char, (l1 ++ s :: l2).dropWhile p = l1.dropWhile p ++ s :: l2 := by
  intro l1
  induction l1 with
  | nil => simp [List.dropWhile, hs]
  | cons c cs ih =>
    by_cases hc : p c = true
    · simp only [List.cons_append, List.dropWhile_cons, hc, if_true, ih]
    · simp only [List.cons_append, List.dropWhile_cons, hc]
      simp

theorem extractRuns_sep_append (p : Char → Bool) (s : Char) (hs : p s = false) (l2 : List Char) :
    ∀ (n : Nat) (l1 : List Char), l1.length ≤ n →
      extractRuns p (l1 ++ s :: l2) = extractRuns p l1 ++ extractRuns p l2 := by
  intro n
  induction n with
  | zero =>
    intro l1 h
    have hl : l1 = [] := List.eq_nil_of_length_eq_zero (Nat.le_zero.mp h)
    subst hl
    rw [List.nil_append, extractRuns_cons, if_neg (by simp [hs])]
    rfl
  | succ n ih =>
    intro l1 h
    cases l1 with
    | nil =>
      rw [List.nil_append, extractRuns_cons, if_neg (by simp [hs])]
      rfl
    | cons c cs =>
      simp only [List.length_cons, Nat.succ_le_succ_iff] at h
      rw [List.cons_append, extractRuns_cons, extractRuns_cons p c cs]
      by_cases hc : p c = true
      · rw [if_pos hc, if_pos hc]
        rw [takeWhile_append_sep p s hs l2 cs, dropWhile_append_sep p s hs l2 cs]
        rw [ih (cs.dropWhile p)
          (Nat.le_trans (List.Sublist.length_le (List.dropWhile_sublist p)) h)]
        simp
      · rw [if_neg hc, if_neg hc]
        exact ih cs h

theorem extractRuns_all_run (p : Char → Bool) (l : List Char) (hne : l ≠ [])
    (hall : l.all p = true) : extractRuns p l = [l] := by
  cases l with
  | nil => exact absurd rfl hne
  | cons c cs =>
    rw [List.all_cons, Bool.and_eq_true] at hall
    have hdrop : cs.dropWhile p = [] := by
      rw [List.dropWhile_eq_nil_iff]
      intro x hx
      exact (List.all_eq_true.mp hall.2) x hx
    have htake : cs.takeWhile p = cs := by
      have := @List.takeWhile_append_dropWhile _ p cs
      rwa [hdrop, List.append_nil] at this
    rw [extractRuns_cons, if_pos hall.1, htake, hdrop]
    rfl

/-- C2 (counterexample): the tokenizer's character class is
`[가-힣a-zA-Z0-9]`, not "letters of any script": `é` (U+00E9, a Unicode
letter outside that class) is treated as a separator, so on `"aéb"` it
appears in no token and the text splits into `["a", "b"]` instead of
forming the single token `"aéb"`. -/
theorem extract_words_non_ascii_letter_dropped :
    'é' ∈ ("aéb".data) ∧
    extract_words ("aéb".data) = [['a'], ['b']] ∧
    (∀ t ∈ extract_words ("aéb".data), 'é' ∉ t) := by
  decide

/-- C2 (amended): for every input, `_extract_words` returns exactly the
maximal runs of characters of the class Hangul syllable / ASCII letter /
ASCII digit, in order of occurrence: every token is a non-empty run of
class characters, their concatenation is the class-filtered input (so every
class character lands in exactly one token, in order), tokens never span a
character outside the class, and a non-empty pure run is one token. -/
theorem extract_words_maximal_runs :
    (∀ (l t : List Char), t ∈ extract_words l → t ≠ [] ∧ t.all isWordChar = true) ∧
    (∀ l : List Char, (extract_words l).flatten = l.filter isWordChar) ∧
    (∀ (l1 l2 : List Char) (s : Char), isWordChar s = false →
      extract_words (l1 ++ s :: l2) = extract_words l1 ++ extract_words l2) ∧
    (∀ l : List Char, l ≠ [] → l.all isWordChar = true → extract_words l = [l]) := by
  refine ⟨?_, ?_, ?_, ?_⟩
  · intro l t ht
    exact extractRuns_tokens isWordChar l.length l (Nat.le_refl _) t ht
  · intro l
    exact extractRuns_flatten isWordChar l.length l (Nat.le_refl _)
  · intro l1 l2 s hsep
    exact extractRuns_sep_append isWordChar s hsep l2 l1.length l1 (Nat.le_refl _)
  · intro l hne hall
    exact extractRuns_all_run isWordChar l hne hall

/-- Closed instance of `extract_words_maximal_runs`: the space in
`"ab cd"` separates the runs. -/
theorem extract_words_maximal_runs_witness :
    isWordChar ' ' = false ∧
    extract_words ("ab cd".data) = extract_words ("ab".data) ++ extract_words ("cd".data) ∧
    ("ab".data ≠ [] ∧ ("ab".data).all isWordChar = true ∧ extract_words ("ab".data) = ["ab".data]) := by
  refine ⟨by decide, ?_, by decide, by decide, ?_⟩
  · exact extract_words_maximal_runs.2.2.1 ("ab".data) ("cd".data) ' ' (by decide)
  · exact extract_words_maximal_runs.2.2.2 ("ab".data) (by decide) (by decide)

-- === Shape of the structural findings, block by block ===

theorem mem_dupBlock {chunks : List Chunk} {e : StructureError}
    (he : e ∈ dupBlock chunks) : isDupCon e = true := by
  simp only [dupBlock] at he
  rcases List.mem_filterMap.mp he with ⟨k, _, hf⟩
  split_ifs at hf
  all_goals
    first
      | (rcases Option.some.inj hf with rfl; rfl)
      | cases hf

theorem mem_seqBlock {chunks : List Chunk} {e : StructureError}
    (he : e ∈ seqBlock chunks) : isSeqCon e = true := by
  simp only [seqBlock] at he
  rcases List.mem_append.mp he with h | h
  all_goals split_ifs at h
  all_goals
    first
      | (rcases List.mem_singleton.mp h with rfl; rfl)
      | cases h

theorem mem_splitGroupFindings {gid : JValue} {group : List (Chunk × List (String × JValue))}
    {e : StructureError} (he : e ∈ splitGroupFindings gid group) : isSplitCon e = true := by
  simp only [splitGroupFindings] at he
  rcases List.mem_append.mp he with h | h
  · split_ifs at h
    all_goals
      first
        | (rcases List.mem_singleton.mp h with rfl; rfl)
        | cases h
  · split at h
    all_goals
      first
        | cases h
        | (rcases List.mem_append.mp h with h2 | h2 <;> split_ifs at h2
           all_goals
             first
               | (rcases List.mem_singleton.mp h2 with rfl; rfl)
               | cases h2)

theorem mem_splitStructBlock {chunks : List Chunk} {e : StructureError}
    (he : e ∈ splitStructBlock chunks) : isSplitCon e = true := by
  simp only [splitStructBlock] at he
  rcases List.mem_flatMap.mp he with ⟨p, _, hmem⟩
  exact mem_splitGroupFindings hmem

theorem mem_sectionBlock {chunks : List Chunk} {e : StructureError}
    (he : e ∈ sectionBlock chunks) : isSectionCon e = true := by
  simp only [sectionBlock] at he
  rcases List.mem_filterMap.mp he with ⟨p, _, hf⟩
  split_ifs at hf
  all_goals
    first
      | (rcases Option.some.inj hf with rfl; rfl)
      | cases hf

theorem mem_linkAux {ids : List JValue} {n : Nat} :
    ∀ {i : Nat} {cs : List Chunk} {e : StructureError},
      e ∈ linkAux ids n i cs → isLinkCon e = true := by
  intro i cs
  induction cs generalizing i with
  | nil => intro e he; simp [linkAux] at he
  | cons c rest ih =>
    intro e he
    simp only [linkAux] at he
    rcases List.mem_append.mp he with h | h
    · rcases List.mem_append.mp h with h | h
      · rcases List.mem_append.mp h with h | h
        · rcases List.mem_append.mp h with h | h
          all_goals split_ifs at h
          all_goals try split at h
          all_goals
            first
              | (rcases List.mem_singleton.mp h with rfl; rfl)
              | cases h
        · split at h
          all_goals try split_ifs at h
          all_goals
            first
              | (rcases List.mem_singleton.mp h with rfl; rfl)
              | cases h
      · split at h
        all_goals try split_ifs at h
        all_goals
          first
            | (rcases List.mem_singleton.mp h with rfl; rfl)
            | cases h
    · exact ih h

theorem mem_linkBlock {chunks : List Chunk} {e : StructureError}
    (he : e ∈ linkBlock chunks) : isLinkCon e = true := by
  simp only [linkBlock] at he
  exact mem_linkAux he

-- === C4: duplicate_seq findings ===

theorem isDupSeqFor_apply (v : Int) (k : Option JValue) (n : Nat) :
    isDupSeqFor v (.duplicate_seq k n) = decide (k = some (JValue.int v)) := by
  rcases k with _ | j
  · simp [isDupSeqFor]
  · rcases j with _ | b | m | s | xs | kvs <;> simp [isDupSeqFor]

theorem dupBlock_filter (chunks : List Chunk) (v : Int) :
    (dupBlock chunks).filter (isDupSeqFor v)
      = if 2 ≤ seqValCount chunks v
        then [StructureError.duplicate_seq (some (JValue.int v)) (seqValCount chunks v)]
        else [] := by
  have hnd := nodup_dedupFirst (chunks.map seqKeyOf)
  rw [dupBlock]
  rw [filterMap_if_prop (fun k => 2 ≤ (chunks.map seqKeyOf).countP (fun x => x = k))
    (fun k => StructureError.duplicate_seq k ((chunks.map seqKeyOf).countP (fun x => x = k)))]
  rw [List.filter_map]
  have hcomp : ((fun e => isDupSeqFor v e) ∘
      (fun k => StructureError.duplicate_seq k ((chunks.map seqKeyOf).countP (fun x => x = k))))
      = fun k => decide (k = some (JValue.int v)) := by
    funext k
    exact isDupSeqFor_apply v k _
  rw [hcomp]
  rw [List.filter_filter]
  have hpred : (fun k => decide (k = some (JValue.int v)) &&
      decide (2 ≤ (chunks.map seqKeyOf).countP (fun x => x = k)))
      = fun k => decide (k = some (JValue.int v)) &&
          decide (2 ≤ seqValCount chunks v) := by
    funext k
    by_cases hk : k = some (JValue.int v)
    · subst hk; rfl
    · simp [hk]
  rw [hpred]
  have hkey := filter_nodup_key (dedupFirst (chunks.map seqKeyOf)) hnd
    (some (JValue.int v)) (fun _ => decide (2 ≤ seqValCount chunks v))
  rw [hkey]
  by_cases hc : 2 ≤ seqValCount chunks v
  · have hmem : some (JValue.int v) ∈ dedupFirst (chunks.map seqKeyOf) := by
      rw [mem_dedupFirst]
      have hpos : 0 < (chunks.map seqKeyOf).countP (fun x => x = some (JValue.int v)) := by
        have : (2 : Nat) ≤ (chunks.map seqKeyOf).countP (fun x => x = some (JValue.int v)) := hc
        omega
      rcases List.countP_pos.mp hpos with ⟨a, ha, hav⟩
      have : a = some (JValue.int v) := of_decide_eq_true hav
      rwa [this] at ha
    rw [if_pos ⟨hmem, by simp [hc]⟩, if_pos hc]
    simp [seqValCount]
  · have hneg : ¬(some (JValue.int v) ∈ dedupFirst (chunks.map seqKeyOf)
        ∧ decide (2 ≤ seqValCount chunks v) = true) := by
      rintro ⟨_, h2⟩
      exact hc (of_decide_eq_true h2)
    rw [if_neg hneg, if_neg hc]
    rfl

theorem filter_eq_nil_of_shape {p q : StructureError → Bool} {l : List StructureError}
    (hshape : ∀ e ∈ l, q e = true) (hincomp : ∀ e, q e = true → p e = false) :
    l.filter p = [] := by
  rw [List.filter_eq_nil_iff]
  intro e he
  simp [hincomp e (hshape e he)]

/-- C4: when some `chunk_seq` value `v` occurs `k > 1` times the structural
validator emits exactly one `duplicate_seq` finding for `v` (recording `k`),
regardless of `k`; a value occurring exactly once gets none. -/
theorem duplicate_seq_once_per_value (chunks : List Chunk) (v : Int) :
    ((verify_structure chunks).filter (isDupSeqFor v)
      = if 2 ≤ seqValCount chunks v
        then [StructureError.duplicate_seq (some (JValue.int v)) (seqValCount chunks v)]
        else []) ∧
    (seqValCount chunks v = 1 → (verify_structure chunks).filter (isDupSeqFor v) = []) := by
  have hmain : (verify_structure chunks).filter (isDupSeqFor v)
      = if 2 ≤ seqValCount chunks v
        then [StructureError.duplicate_seq (some (JValue.int v)) (seqValCount chunks v)]
        else [] := by
    by_cases hemp : chunks.isEmpty
    · have hnil : chunks = [] := List.isEmpty_iff.mp hemp
      subst hnil
      simp [verify_structure, seqValCount]
    · rw [verify_structure, if_neg hemp]
      rw [List.filter_append, List.filter_append, List.filter_append, List.filter_append]
      rw [filter_eq_nil_of_shape (fun e he => mem_seqBlock he)
        (by intro e hq; cases e <;> simp [isSeqCon, isDupSeqFor] at hq ⊢)]
      rw [filter_eq_nil_of_shape (fun e he => mem_splitStructBlock he)
        (by intro e hq; cases e <;> simp [isSplitCon, isDupSeqFor] at hq ⊢)]
      rw [filter_eq_nil_of_shape (fun e he => mem_sectionBlock he)
        (by intro e hq; cases e <;> simp [isSectionCon, isDupSeqFor] at hq ⊢)]
      rw [filter_eq_nil_of_shape (fun e he => mem_linkBlock he)
        (by intro e hq; cases e <;> simp [isLinkCon, isDupSeqFor] at hq ⊢)]
      rw [dupBlock_filter]
      simp
  refine ⟨hmain, fun h1 => ?_⟩
  rw [hmain, if_neg (by omega)]

/-- Closed instance of `duplicate_seq_once_per_value`: with `chunk_seq`
values 0, 2, 2 the validator reports one `duplicate_seq` finding for 2,
recording its occurrence count, and none for 0. -/
theorem duplicate_seq_once_per_value_witness :
    ((verify_structure [[("chunk_seq", JValue.int 0)], [("chunk_seq", JValue.int 2)],
        [("chunk_seq", JValue.int 2)]]).filter (isDupSeqFor 2)
      = [StructureError.duplicate_seq (some (JValue.int 2)) 2]) ∧
    ((verify_structure [[("chunk_seq", JValue.int 0)], [("chunk_seq", JValue.int 2)],
        [("chunk_seq", JValue.int 2)]]).filter (isDupSeqFor 0) = []) := by
  constructor
  · have h := (duplicate_seq_once_per_value [[("chunk_seq", JValue.int 0)],
      [("chunk_seq", JValue.int 2)], [("chunk_seq", JValue.int 2)]] 2).1
    rw [h]
    decide
  · exact (duplicate_seq_once_per_value [[("chunk_seq", JValue.int 0)],
      [("chunk_seq", JValue.int 2)], [("chunk_seq", JValue.int 2)]] 0).2 (by decide)

-- === C3: seq_gap findings ===

theorem rangeInt_mem (s : Int) (n : Nat) (v : Int) :
    v ∈ rangeInt s n ↔ s ≤ v ∧ v < s + n := by
  rw [rangeInt]
  constructor
  · intro hv
    rcases List.mem_map.mp hv with ⟨i, hi, rfl⟩
    have := List.mem_range.mp hi
    omega
  · rintro ⟨h1, h2⟩
    refine List.mem_map.mpr ⟨(v - s).toNat, List.mem_range.mpr (by omega), by omega⟩

theorem rangeInt_length (s : Int) (n : Nat) : (rangeInt s n).length = n := by
  rw [rangeInt, List.length_map, List.length_range]

theorem rangeInt_nodup (s : Int) (n : Nat) : (rangeInt s n).Nodup := by
  rw [rangeInt]
  refine List.Nodup.map ?_ (List.nodup_range n)
  intro a b hab
  simp only at hab
  omega

theorem rangeInt_sorted (s : Int) (n : Nat) : (rangeInt s n).Sorted (· ≤ ·) := by
  rw [rangeInt]
  refine List.Pairwise.map _ ?_ (List.pairwise_lt_range n)
  intro a b hab
  omega

/-- C3: for a non-empty collection in which every chunk carries an integer
`chunk_seq` and the values are pairwise distinct, the structural validator
emits a `seq_gap` finding iff some value between the minimum m and
m + count - 1 is absent; when emitted there is exactly one such finding and
its recorded list contains exactly the absent values of that range. -/
theorem seq_gap_characterization (chunks : List Chunk) (m : Int) (missing : List Int)
    (hne : chunks ≠ [])
    (hall : ∀ c ∈ chunks, ∃ n : Int, jget c "chunk_seq" = some (JValue.int n))
    (hnd : (chunks.map intSeqOf).Nodup)
    (hm : m = ((chunks.map intSeqOf).insertionSort (· ≤ ·)).headD 0)
    (hmiss : missing = (rangeInt m ((chunks.map intSeqOf).insertionSort (· ≤ ·)).length).filter
        (fun v => !((chunks.map intSeqOf).insertionSort (· ≤ ·)).contains v)) :
    (m ∈ chunks.map intSeqOf ∧ ∀ w ∈ chunks.map intSeqOf, m ≤ w) ∧
    (∀ v : Int, v ∈ missing ↔
      (v ∈ rangeInt m chunks.length ∧ v ∉ chunks.map intSeqOf)) ∧
    ((verify_structure chunks).filter isSeqGapCon
      = if missing = [] then [] else [StructureError.seq_gap missing]) := by
  have hvne : chunks.map intSeqOf ≠ [] := by
    intro h
    exact hne (List.map_eq_nil_iff.mp h)
  have hperm : List.Perm ((chunks.map intSeqOf).insertionSort (· ≤ ·)) (chunks.map intSeqOf) :=
    List.perm_insertionSort _ _
  have hsorted : ((chunks.map intSeqOf).insertionSort (· ≤ ·)).Sorted (· ≤ ·) :=
    List.sorted_insertionSort _ _
  have hsne : (chunks.map intSeqOf).insertionSort (· ≤ ·) ≠ [] := by
    intro h
    apply hvne
    have := hperm.length_eq
    rw [h] at this
    exact List.eq_nil_of_length_eq_zero this.symm
  have hsndnd : ((chunks.map intSeqOf).insertionSort (· ≤ ·)).Nodup :=
    (hperm.nodup_iff).mpr hnd
  have hslen : ((chunks.map intSeqOf).insertionSort (· ≤ ·)).length = chunks.length := by
    rw [hperm.length_eq, List.length_map]
  have hmemsort : ∀ v : Int,
      v ∈ (chunks.map intSeqOf).insertionSort (· ≤ ·) ↔ v ∈ chunks.map intSeqOf :=
    fun v => hperm.mem_iff
  -- the head of the sorted list is the minimum
  obtain ⟨a, rest, hcons⟩ := List.exists_cons_of_ne_nil hsne
  have hma : m = a := by rw [hm, hcons]; rfl
  have hmin : m ∈ chunks.map intSeqOf ∧ ∀ w ∈ chunks.map intSeqOf, m ≤ w := by
    subst hma
    constructor
    · rw [← hmemsort, hcons]
      exact List.mem_cons_self _ _
    · intro w hw
      rw [← hmemsort, hcons] at hw
      rcases List.mem_cons.mp hw with rfl | hw2
      · exact le_refl _
      · have := List.sorted_cons.mp (hcons ▸ hsorted)
        exact this.1 w hw2
  -- the recorded values are exactly the absent ones
  have hmissmem : ∀ v : Int, v ∈ missing ↔
      (v ∈ rangeInt m chunks.length ∧ v ∉ chunks.map intSeqOf) := by
    intro v
    rw [hmiss, List.mem_filter, hslen]
    constructor
    · rintro ⟨h1, h2⟩
      refine ⟨h1, fun hv => ?_⟩
      rw [Bool.not_eq_true'] at h2
      rw [← hmemsort] at hv
      have hel : ((chunks.map intSeqOf).insertionSort (· ≤ ·)).contains v = true :=
        List.elem_eq_true_of_mem hv
      rw [h2] at hel
      cases hel
    · rintro ⟨h1, h2⟩
      refine ⟨h1, ?_⟩
      rw [Bool.not_eq_true']
      cases hb : ((chunks.map intSeqOf).insertionSort (· ≤ ·)).contains v with
      | false => rfl
      | true =>
        exfalso
        apply h2
        rw [← hmemsort]
        exact List.mem_of_elem_eq_true hb
  refine ⟨hmin, hmissmem, ?_⟩
  -- evaluate the validator
  have hnemp : chunks.isEmpty = false := by
    rcases chunks with _ | ⟨c, cs⟩
    · exact absurd rfl hne
    · rfl
  rw [verify_structure, hnemp]
  simp only [Bool.false_eq_true, if_false]
  rw [List.filter_append, List.filter_append, List.filter_append, List.filter_append]
  rw [filter_eq_nil_of_shape (fun e he => mem_dupBlock he)
    (by intro e hq; cases e <;> simp [isDupCon, isSeqGapCon] at hq ⊢)]
  rw [filter_eq_nil_of_shape (fun e he => mem_splitStructBlock he)
    (by intro e hq; cases e <;> simp [isSplitCon, isSeqGapCon] at hq ⊢)]
  rw [filter_eq_nil_of_shape (fun e he => mem_sectionBlock he)
    (by intro e hq; cases e <;> simp [isSectionCon, isSeqGapCon] at hq ⊢)]
  rw [filter_eq_nil_of_shape (fun e he => mem_linkBlock he)
    (by intro e hq; cases e <;> simp [isLinkCon, isSeqGapCon] at hq ⊢)]
  simp only [List.nil_append, List.append_nil]
  -- only the seqBlock remains
  rw [seqBlock]
  rw [List.filter_append]
  have hnotzero : (if ((chunks.map intSeqOf).insertionSort (· ≤ ·)).headD 0 ≠ 0 then
      [StructureError.seq_not_zero (((chunks.map intSeqOf).insertionSort (· ≤ ·)).headD 0)]
      else []).filter isSeqGapCon = [] := by
    split_ifs <;> rfl
  rw [hnotzero, List.nil_append]
  -- the gap part
  have hgap : missing = (rangeInt (((chunks.map intSeqOf).insertionSort (· ≤ ·)).headD 0)
      ((chunks.map intSeqOf).insertionSort (· ≤ ·)).length).filter
        (fun v => !((chunks.map intSeqOf).insertionSort (· ≤ ·)).contains v) := by
    rw [hmiss, hm]
  by_cases hms : missing = []
  · rw [if_pos hms]
    by_cases h1 : (chunks.map intSeqOf).insertionSort (· ≤ ·)
        ≠ rangeInt (((chunks.map intSeqOf).insertionSort (· ≤ ·)).headD 0)
            ((chunks.map intSeqOf).insertionSort (· ≤ ·)).length
    · rw [if_pos h1, ← hgap, hms]
      rfl
    · rw [if_neg h1]
      rfl
  · rw [if_neg hms]
    -- missing non-empty forces sorted ≠ expected
    have hneq : (chunks.map intSeqOf).insertionSort (· ≤ ·)
        ≠ rangeInt (((chunks.map intSeqOf).insertionSort (· ≤ ·)).headD 0)
            ((chunks.map intSeqOf).insertionSort (· ≤ ·)).length := by
      intro heq
      apply hms
      rw [hgap]
      rw [List.filter_eq_nil_iff]
      intro v hv hvp
      rw [Bool.not_eq_true'] at hvp
      have hvs : v ∈ (chunks.map intSeqOf).insertionSort (· ≤ ·) := by
        rw [heq]
        exact hv
      have hel : ((chunks.map intSeqOf).insertionSort (· ≤ ·)).contains v = true :=
        List.elem_eq_true_of_mem hvs
      rw [hvp] at hel
      cases hel
    rw [if_pos hneq, ← hgap, if_neg (by simp [List.isEmpty_iff, hms]), List.filter_cons]
    simp [isSeqGapCon]

/-- Closed instance of `seq_gap_characterization`: `chunk_seq` values 0 and
2 yield one `seq_gap` finding listing the missing value 1. -/
theorem seq_gap_characterization_witness :
    ((0 : Int) ∈ [[("chunk_seq", JValue.int 0)], [("chunk_seq", JValue.int 2)]].map intSeqOf ∧
      ∀ w ∈ [[("chunk_seq", JValue.int 0)], [("chunk_seq", JValue.int 2)]].map intSeqOf,
        (0 : Int) ≤ w) ∧
    (∀ v : Int, v ∈ ([1] : List Int) ↔
      (v ∈ rangeInt 0 [[("chunk_seq", JValue.int 0)], [("chunk_seq", JValue.int 2)]].length ∧
        v ∉ [[("chunk_seq", JValue.int 0)], [("chunk_seq", JValue.int 2)]].map intSeqOf)) ∧
    ((verify_structure [[("chunk_seq", JValue.int 0)], [("chunk_seq", JValue.int 2)]]).filter
        isSeqGapCon
      = if ([1] : List Int) = [] then [] else [StructureError.seq_gap [1]]) := by
  refine seq_gap_characterization
    [[("chunk_seq", JValue.int 0)], [("chunk_seq", JValue.int 2)]] 0 [1]
    (by decide) ?_ (by decide) (by decide) (by decide)
  intro c hc
  rcases List.mem_cons.mp hc with rfl | hc2
  · exact ⟨0, rfl⟩
  · rcases List.mem_cons.mp hc2 with rfl | hc3
    · exact ⟨2, rfl⟩
    · cases hc3

-- === Shape of the schema findings, block by block ===

theorem filter_eq_nil_by_fieldName {l : List SchemaError} {L : List String}
    (hshape : ∀ e ∈ l, fieldName e.field ∈ L) (p : SchemaError → Bool)
    (hp : ∀ e, p e = true → fieldName e.field ∉ L) :
    l.filter p = [] := by
  rw [List.filter_eq_nil_iff]
  intro e he hpe
  exact hp e hpe (hshape e he)

theorem mem_requiredBlock {c : Chunk} {e : SchemaError} (he : e ∈ requiredBlock c) :
    ∃ f, f ∈ REQUIRED_CHUNK_FIELDS ∧ hasKey c f = false ∧ e = mkSE c (.flat f) "error" := by
  simp only [requiredBlock] at he
  rcases List.mem_filterMap.mp he with ⟨f, hf, hsome⟩
  split_ifs at hsome with h
  rcases Option.some.inj hsome with rfl
  exact ⟨f, hf, Bool.eq_false_iff.mpr h, rfl⟩

theorem mem_chunkTypeBlock {c : Chunk} {e : SchemaError} (he : e ∈ chunkTypeBlock c) :
    fieldName e.field ∈ ["chunk_type"] := by
  simp only [chunkTypeBlock] at he
  split at he
  all_goals try split_ifs at he
  all_goals
    first
      | (rcases List.mem_singleton.mp he with rfl; simp [mkSE, fieldName])
      | cases he

theorem mem_spanItemFindings {c : Chunk} {i : Nat} {s : JValue} {e : SchemaError}
    (he : e ∈ spanItemFindings c i s) :
    ∃ sub, e = mkSE c (.spanElem i sub) "error" := by
  simp only [spanItemFindings] at he
  split at he
  · rcases List.mem_filterMap.mp he with ⟨f, _, hsome⟩
    split_ifs at hsome
    rcases Option.some.inj hsome with rfl
    exact ⟨"." ++ f, rfl⟩
  · rcases List.mem_singleton.mp he with rfl
    exact ⟨"", rfl⟩

theorem mem_locatorsBlock {c : Chunk} {e : SchemaError} (he : e ∈ locatorsBlock c) :
    fieldName e.field ∈ ["locators", "locators.spans", "locators.spans[*"] := by
  simp only [locatorsBlock] at he
  split at he
  · cases he
  · split at he
    · rcases List.mem_singleton.mp he with rfl
      simp [mkSE, fieldName]
    · split_ifs at he
      · rcases List.mem_singleton.mp he with rfl
        simp [mkSE, fieldName]
      · rcases mem_idxAux.mp he with ⟨j, x, _, hx⟩
        rcases mem_spanItemFindings hx with ⟨sub, rfl⟩
        simp [mkSE, fieldName]
    · rcases List.mem_singleton.mp he with rfl
      simp [mkSE, fieldName]
  · rcases List.mem_singleton.mp he with rfl
    simp [mkSE, fieldName]

theorem mem_pageCheck {c : Chunk} {actual : Option JValue} {fname : String} {expected : Int}
    {e : SchemaError} (he : e ∈ pageCheck c actual fname expected) :
    e = mkSE c (.flat fname) "error" := by
  simp only [pageCheck] at he
  split at he
  · split_ifs at he
    all_goals
      first
        | (exact List.mem_singleton.mp he)
        | cases he
  · cases he

theorem mem_derivedBlock {c : Chunk} {e : SchemaError} (he : e ∈ derivedBlock c) :
    fieldName e.field ∈ ["page_start", "page_end"] := by
  simp only [derivedBlock] at he
  split at he
  · split at he
    · split_ifs at he
      · cases he
      · split at he
        · split_ifs at he
          · cases he
          · rcases List.mem_append.mp he with h | h
            · rw [mem_pageCheck h]
              simp [mkSE, fieldName]
            · rw [mem_pageCheck h]
              simp [mkSE, fieldName]
        · cases he
    · cases he
  · cases he

theorem mem_splitFieldBlock {c : Chunk} {e : SchemaError} (he : e ∈ splitFieldBlock c) :
    fieldName e.field ∈ ["split", "split.*"] := by
  simp only [splitFieldBlock] at he
  split at he
  · cases he
  · rcases List.mem_append.mp he with h | h
    · rcases List.mem_filterMap.mp h with ⟨f, _, hsome⟩
      split_ifs at hsome
      rcases Option.some.inj hsome with rfl
      simp [mkSE, fieldName]
    · split at h
      · split_ifs at h
        all_goals
          first
            | (rcases List.mem_singleton.mp h with rfl; simp [mkSE, fieldName])
            | cases h
      · cases h
  · rcases List.mem_singleton.mp he with rfl
    simp [mkSE, fieldName]

theorem mem_refItemFindings {c : Chunk} {i : Nat} {r : JValue} {e : SchemaError}
    (he : e ∈ refItemFindings c i r) :
    ∃ sub sev, e = mkSE c (.refElem i sub) sev := by
  simp only [refItemFindings] at he
  split at he
  · rcases List.mem_append.mp he with h | h
    · rcases List.mem_append.mp h with h2 | h2
      · rcases List.mem_append.mp h2 with h3 | h3
        · rcases List.mem_filterMap.mp h3 with ⟨f, _, hsome⟩
          split_ifs at hsome
          rcases Option.some.inj hsome with rfl
          exact ⟨"." ++ f, "error", rfl⟩
        · split_ifs at h3
          all_goals
            first
              | (rcases List.mem_singleton.mp h3 with rfl; exact ⟨".type", "error", rfl⟩)
              | cases h3
      · split at h2
        · split_ifs at h2
          all_goals
            first
              | (rcases List.mem_singleton.mp h2 with rfl; exact ⟨".relation", "warning", rfl⟩)
              | cases h2
        · cases h2
    · split at h
      · split_ifs at h
        all_goals
          first
            | (rcases List.mem_singleton.mp h with rfl; exact ⟨".target_norm", "warning", rfl⟩)
            | cases h
      · cases h
  · rcases List.mem_singleton.mp he with rfl
    exact ⟨"", "error", rfl⟩

theorem mem_referencesBlock {c : Chunk} {e : SchemaError} (he : e ∈ referencesBlock c) :
    fieldName e.field ∈ ["references[*"] := by
  simp only [referencesBlock] at he
  split at he
  · rcases mem_idxAux.mp he with ⟨j, x, _, hx⟩
    rcases mem_refItemFindings hx with ⟨sub, sev, rfl⟩
    simp [mkSE, fieldName]
  · cases he

theorem mem_sectionPathBlock {c : Chunk} {e : SchemaError} (he : e ∈ sectionPathBlock c) :
    fieldName e.field ∈ ["section_path"] := by
  simp only [sectionPathBlock] at he
  split at he
  all_goals try split_ifs at he
  all_goals
    first
      | (rcases List.mem_singleton.mp he with rfl; simp [mkSE, fieldName])
      | cases he

theorem mem_keywordsBlock {c : Chunk} {e : SchemaError} (he : e ∈ keywordsBlock c) :
    fieldName e.field ∈ ["keywords"] := by
  simp only [keywordsBlock] at he
  split at he
  all_goals try split_ifs at he
  all_goals
    first
      | (rcases List.mem_singleton.mp he with rfl; simp [mkSE, fieldName])
      | cases he

theorem mem_okItemFindings {c : Chunk} {j : Nat} {item : JValue} {e : SchemaError}
    (he : e ∈ okItemFindings c j item) :
    e = mkSE c (.okElem j) "warning" := by
  simp only [okItemFindings] at he
  split at he
  all_goals try split_ifs at he
  all_goals
    first
      | (exact List.mem_singleton.mp he)
      | cases he

theorem mem_ontologyBlock {c : Chunk} {e : SchemaError} (he : e ∈ ontologyBlock c) :
    fieldName e.field ∈ ["ontology_keywords", "ontology_keywords[*"] := by
  simp only [ontologyBlock] at he
  split at he
  · rcases mem_idxAux.mp he with ⟨j, x, _, hx⟩
    rw [mem_okItemFindings hx]
    simp [mkSE, fieldName]
  · rcases List.mem_singleton.mp he with rfl
    simp [mkSE, fieldName]
  · cases he

theorem mem_textBlock {c : Chunk} {e : SchemaError} (he : e ∈ textBlock c) :
    fieldName e.field ∈ ["text"] := by
  simp only [textBlock] at he
  split at he
  all_goals try split_ifs at he
  all_goals
    first
      | (rcases List.mem_singleton.mp he with rfl; simp [mkSE, fieldName])
      | cases he

theorem mem_embeddingBlock {c : Chunk} {e : SchemaError} (he : e ∈ embeddingBlock c) :
    fieldName e.field ∈ ["embedding"] := by
  simp only [embeddingBlock] at he
  split_ifs at he
  all_goals
    first
      | (rcases List.mem_singleton.mp he with rfl; simp [mkSE, fieldName])
      | cases he

theorem mem_deItemFindings {c : Chunk} {i : Nat} {ent : JValue} {e : SchemaError}
    (he : e ∈ deItemFindings c i ent) :
    ∃ sub, e = mkSE c (.deElem i sub) "warning" := by
  simp only [deItemFindings] at he
  split at he
  · rcases List.mem_append.mp he with h | h
    · rcases List.mem_filterMap.mp h with ⟨f, _, hsome⟩
      split_ifs at hsome
      rcases Option.some.inj hsome with rfl
      exact ⟨"." ++ f, rfl⟩
    · split_ifs at h
      all_goals
        first
          | (rcases List.mem_singleton.mp h with rfl; exact ⟨".type", rfl⟩)
          | cases h
  · rcases List.mem_singleton.mp he with rfl
    exact ⟨"", rfl⟩

theorem mem_domainEntitiesBlock {c : Chunk} {e : SchemaError} (he : e ∈ domainEntitiesBlock c) :
    fieldName e.field ∈ ["domain_entities", "domain_entities[*"] := by
  simp only [domainEntitiesBlock] at he
  split at he
  · rcases mem_idxAux.mp he with ⟨j, x, _, hx⟩
    rcases mem_deItemFindings hx with ⟨sub, rfl⟩
    simp [mkSE, fieldName]
  · rcases List.mem_singleton.mp he with rfl
    simp [mkSE, fieldName]
  · cases he

theorem mem_applicabilityBlock {c : Chunk} {e : SchemaError} (he : e ∈ applicabilityBlock c) :
    fieldName e.field ∈ ["applicability"] := by
  simp only [applicabilityBlock] at he
  split at he
  all_goals
    first
      | (rcases List.mem_singleton.mp he with rfl; simp [mkSE, fieldName])
      | cases he

theorem mem_normativeValuesBlock {c : Chunk} {e : SchemaError}
    (he : e ∈ normativeValuesBlock c) :
    fieldName e.field ∈ ["normative_values"] := by
  simp only [normativeValuesBlock] at he
  split at he
  all_goals
    first
      | (rcases List.mem_singleton.mp he with rfl; simp [mkSE, fieldName])
      | cases he

theorem mem_tableOversizedBlock {c : Chunk} {e : SchemaError}
    (he : e ∈ tableOversizedBlock c) :
    fieldName e.field ∈ ["table_oversized"] := by
  simp only [tableOversizedBlock] at he
  split at he
  all_goals try split_ifs at he
  all_goals
    first
      | (rcases List.mem_singleton.mp he with rfl; simp [mkSE, fieldName])
      | cases he

theorem mem_tdEntryFindings {c : Chunk} {tname : String} {tdata : JValue} {e : SchemaError}
    (he : e ∈ tdEntryFindings c tname tdata) :
    ∃ sub, e = mkSE c (.tdElem tname sub) "error" := by
  simp only [tdEntryFindings] at he
  split at he
  · rcases List.mem_filterMap.mp he with ⟨f, _, hsome⟩
    split_ifs at hsome
    rcases Option.some.inj hsome with rfl
    exact ⟨f, rfl⟩
  · cases he

theorem mem_tablesDataBlock {c : Chunk} {e : SchemaError} (he : e ∈ tablesDataBlock c) :
    fieldName e.field ∈ ["tables_data", "tables_data.*"] := by
  simp only [tablesDataBlock] at he
  split at he
  · cases he
  · rcases List.mem_singleton.mp he with rfl
    simp [mkSE, fieldName]
  · rcases List.mem_flatMap.mp he with ⟨p, _, hx⟩
    rcases mem_tdEntryFindings hx with ⟨sub, rfl⟩
    simp [mkSE, fieldName]
  · rcases List.mem_singleton.mp he with rfl
    simp [mkSE, fieldName]

theorem mem_eqItemFindings {c : Chunk} {i : Nat} {eqv : JValue} {e : SchemaError}
    (he : e ∈ eqItemFindings c i eqv) :
    ∃ sub, e = mkSE c (.eqElem i sub) "error" := by
  simp only [eqItemFindings] at he
  split at he
  · rcases List.mem_filterMap.mp he with ⟨f, _, hsome⟩
    split_ifs at hsome
    rcases Option.some.inj hsome with rfl
    exact ⟨"." ++ f, rfl⟩
  · rcases List.mem_singleton.mp he with rfl
    exact ⟨"", rfl⟩

theorem mem_equationsBlock {c : Chunk} {e : SchemaError} (he : e ∈ equationsBlock c) :
    fieldName e.field ∈ ["equations", "equations[*"] := by
  simp only [equationsBlock] at he
  split at he
  · cases he
  · rcases List.mem_singleton.mp he with rfl
    simp [mkSE, fieldName]
  · rcases mem_idxAux.mp he with ⟨j, x, _, hx⟩
    rcases mem_eqItemFindings hx with ⟨sub, rfl⟩
    simp [mkSE, fieldName]
  · rcases List.mem_singleton.mp he with rfl
    simp [mkSE, fieldName]

-- === C8: derived page_start / page_end checks ===

theorem foldl_min_spec (xs : List Int) :
    ∀ x : Int, (xs.foldl min x = x ∨ xs.foldl min x ∈ xs) ∧
      xs.foldl min x ≤ x ∧ (∀ v ∈ xs, xs.foldl min x ≤ v) := by
  induction xs with
  | nil => intro x; exact ⟨Or.inl rfl, le_refl x, by simp⟩
  | cons y ys ih =>
    intro x
    rcases ih (min x y) with ⟨hmem, hle, hall⟩
    rw [List.foldl_cons]
    refine ⟨?_, ?_, ?_⟩
    · rcases hmem with h | h
      · rcases min_choice x y with hc | hc
        · rw [h, hc]; exact Or.inl rfl
        · rw [h, hc]; exact Or.inr (List.mem_cons_self _ _)
      · exact Or.inr (List.mem_cons_of_mem _ h)
    · exact le_trans hle (min_le_left x y)
    · intro v hv
      rcases List.mem_cons.mp hv with rfl | hv2
      · exact le_trans hle (min_le_right x v)
      · exact hall v hv2

theorem foldl_max_spec (xs : List Int) :
    ∀ x : Int, (xs.foldl max x = x ∨ xs.foldl max x ∈ xs) ∧
      x ≤ xs.foldl max x ∧ (∀ v ∈ xs, v ≤ xs.foldl max x) := by
  induction xs with
  | nil => intro x; exact ⟨Or.inl rfl, le_refl x, by simp⟩
  | cons y ys ih =>
    intro x
    rcases ih (max x y) with ⟨hmem, hle, hall⟩
    rw [List.foldl_cons]
    refine ⟨?_, ?_, ?_⟩
    · rcases hmem with h | h
      · rcases max_choice x y with hc | hc
        · rw [h, hc]; exact Or.inl rfl
        · rw [h, hc]; exact Or.inr (List.mem_cons_self _ _)
      · exact Or.inr (List.mem_cons_of_mem _ h)
    · exact le_trans (le_max_left x y) hle
    · intro v hv
      rcases List.mem_cons.mp hv with rfl | hv2
      · exact le_trans (le_max_right x v) hle
      · exact hall v hv2

theorem minD_spec (l : List Int) (h : l ≠ []) :
    minD l ∈ l ∧ ∀ v ∈ l, minD l ≤ v := by
  cases l with
  | nil => exact absurd rfl h
  | cons x xs =>
    rw [minD]
    rcases foldl_min_spec xs x with ⟨hmem, hle, hall⟩
    constructor
    · rcases hmem with h2 | h2
      · rw [h2]; exact List.mem_cons_self _ _
      · exact List.mem_cons_of_mem _ h2
    · intro v hv
      rcases List.mem_cons.mp hv with rfl | hv2
      · exact hle
      · exact hall v hv2

theorem maxD_spec (l : List Int) (h : l ≠ []) :
    maxD l ∈ l ∧ ∀ v ∈ l, v ≤ maxD l := by
  cases l with
  | nil => exact absurd rfl h
  | cons x xs =>
    rw [maxD]
    rcases foldl_max_spec xs x with ⟨hmem, hle, hall⟩
    constructor
    · rcases hmem with h2 | h2
      · rw [h2]; exact List.mem_cons_self _ _
      · exact List.mem_cons_of_mem _ h2
    · intro v hv
      rcases List.mem_cons.mp hv with rfl | hv2
      · exact hle
      · exact hall v hv2

theorem getIntsFor_of_wf (k : String) :
    ∀ xs : List JValue,
      (∀ s ∈ xs, ∃ kvs, s = JValue.obj kvs ∧ ∃ a : Int, jget kvs k = some (.int a)) →
      ∃ vals : List Int, getIntsFor xs k = some vals ∧ vals.length = xs.length ∧
        (∀ v : Int, v ∈ vals ↔
          ∃ s ∈ xs, ∃ kvs, s = JValue.obj kvs ∧ jget kvs k = some (.int v)) := by
  intro xs
  induction xs with
  | nil =>
    intro _
    refine ⟨[], rfl, rfl, ?_⟩
    simp
  | cons s xs ih =>
    intro hwf
    rcases hwf s (List.mem_cons_self _ _) with ⟨kvs, rfl, a, ha⟩
    rcases ih (fun t ht => hwf t (List.mem_cons_of_mem _ ht)) with ⟨vals, hv, hlen, hmem⟩
    refine ⟨a :: vals, ?_, by simp [hlen], ?_⟩
    · simp only [getIntsFor, List.filterMap_cons, ha] at hv ⊢
      simp only [List.all_cons]
      split_ifs at hv with hall
      rcases Option.some.inj hv with rfl
      simp [hall]
    · intro v
      constructor
      · intro hv2
        rcases List.mem_cons.mp hv2 with rfl | hv3
        · exact ⟨.obj kvs, List.mem_cons_self _ _, kvs, rfl, ha⟩
        · rcases (hmem v).mp hv3 with ⟨t, ht, kvs2, rfl, h2⟩
          exact ⟨.obj kvs2, List.mem_cons_of_mem _ ht, kvs2, rfl, h2⟩
      · rintro ⟨t, ht, kvs2, rfl, h2⟩
        rcases List.mem_cons.mp ht with heq | ht2
        · rcases JValue.obj.inj heq with rfl
          rw [ha] at h2
          rcases Option.some.inj h2 with h3
          rcases JValue.int.inj h3 with rfl
          exact List.mem_cons_self _ _
        · exact List.mem_cons_of_mem _ ((hmem v).mpr ⟨.obj kvs2, ht2, kvs2, rfl, h2⟩)

theorem requiredBlock_filter_nil {c : Chunk} (p : SchemaError → Bool)
    (hp : ∀ f, f ∈ REQUIRED_CHUNK_FIELDS → hasKey c f = false →
      p (mkSE c (.flat f) "error") = false) :
    (requiredBlock c).filter p = [] := by
  rw [List.filter_eq_nil_iff]
  intro e he hpe
  rcases mem_requiredBlock he with ⟨f, hf, hk, rfl⟩
  rw [hp f hf hk] at hpe
  cases hpe

theorem hp_flat (fn : String) (L : List String) (hfn : fn ∉ L) :
    ∀ e : SchemaError, (decide (e.field = SchemaField.flat fn)) = true →
      fieldName e.field ∉ L := by
  intro e hpe
  have h2 : e.field = .flat fn := of_decide_eq_true hpe
  rw [h2]
  simpa [fieldName] using hfn

/-- C8: when `locators.spans` is a non-empty list of span objects (integer
`doc_page_start` / `doc_page_end`) and integer `page_start` / `page_end` are
stored, the schema validator emits exactly one error-severity `page_start`
finding iff the stored value differs from the span minimum, and — checked
independently under the same rule — exactly one `page_end` finding iff the
stored value differs from the span maximum; `spanMin`/`spanMax` are indeed
the minimum/maximum of the spans' values. -/
theorem page_derived_consistency (c : Chunk) (locs : List (String × JValue))
    (xs : List JValue) (ps pe : Int)
    (hloc : jget c "locators" = some (.obj locs))
    (hspans : jget locs "spans" = some (.arr xs))
    (hxs : xs ≠ [])
    (hwf : ∀ s ∈ xs, ∃ kvs, s = JValue.obj kvs ∧
      (∃ a : Int, jget kvs "doc_page_start" = some (.int a)) ∧
      (∃ b : Int, jget kvs "doc_page_end" = some (.int b)))
    (hps : jget c "page_start" = some (.int ps))
    (hpe : jget c "page_end" = some (.int pe)) :
    ((verify_schema_chunk c).filter (fun e => e.field = SchemaField.flat "page_start")
      = if ps = spanMin xs then [] else [mkSE c (.flat "page_start") "error"]) ∧
    ((verify_schema_chunk c).filter (fun e => e.field = SchemaField.flat "page_end")
      = if pe = spanMax xs then [] else [mkSE c (.flat "page_end") "error"]) ∧
    (∀ v : Int,
      (∃ s ∈ xs, ∃ kvs, s = JValue.obj kvs ∧ jget kvs "doc_page_start" = some (.int v)) →
        spanMin xs ≤ v) ∧
    (∃ s ∈ xs, ∃ kvs, s = JValue.obj kvs ∧
      jget kvs "doc_page_start" = some (.int (spanMin xs))) ∧
    (∀ v : Int,
      (∃ s ∈ xs, ∃ kvs, s = JValue.obj kvs ∧ jget kvs "doc_page_end" = some (.int v)) →
        v ≤ spanMax xs) ∧
    (∃ s ∈ xs, ∃ kvs, s = JValue.obj kvs ∧
      jget kvs "doc_page_end" = some (.int (spanMax xs))) := by
  rcases getIntsFor_of_wf "doc_page_start" xs
      (fun s hs => by rcases hwf s hs with ⟨kvs, rfl, h1, _⟩; exact ⟨kvs, rfl, h1⟩)
    with ⟨vals1, hint1, hlen1, hmem1⟩
  rcases getIntsFor_of_wf "doc_page_end" xs
      (fun s hs => by rcases hwf s hs with ⟨kvs, rfl, _, h2⟩; exact ⟨kvs, rfl, h2⟩)
    with ⟨vals2, hint2, hlen2, hmem2⟩
  have hvne1 : vals1 ≠ [] := by
    intro h
    rw [h] at hlen1
    exact hxs (List.eq_nil_of_length_eq_zero hlen1.symm)
  have hvne2 : vals2 ≠ [] := by
    intro h
    rw [h] at hlen2
    exact hxs (List.eq_nil_of_length_eq_zero hlen2.symm)
  have hsmin : spanMin xs = minD vals1 := by rw [spanMin, hint1]; rfl
  have hsmax : spanMax xs = maxD vals2 := by rw [spanMax, hint2]; rfl
  have hnnloc : jgetNN c "locators" = some (.obj locs) := by rw [jgetNN, hloc]
  have hnnps : jgetNN c "page_start" = some (.int ps) := by rw [jgetNN, hps]
  have hnnpe : jgetNN c "page_end" = some (.int pe) := by rw [jgetNN, hpe]
  have hd : derivedBlock c
      = pageCheck c (jgetNN c "page_start") "page_start" (minD vals1)
        ++ pageCheck c (jgetNN c "page_end") "page_end" (maxD vals2) := by
    rw [derivedBlock, hnnloc]
    simp only [hspans]
    rw [if_neg (by simp [hxs] : ¬(xs.isEmpty = true))]
    simp only [hint1, hint2]
    rw [if_neg ?hne]
    case hne =>
      rintro (h | h)
      · exact hvne1 (List.isEmpty_iff.mp h)
      · exact hvne2 (List.isEmpty_iff.mp h)
  have hkps : hasKey c "page_start" = true := by rw [hasKey, hps]; rfl
  have hkpe : hasKey c "page_end" = true := by rw [hasKey, hpe]; rfl
  have hfilterPS : (verify_schema_chunk c).filter
      (fun e => e.field = SchemaField.flat "page_start")
      = if ps = minD vals1 then [] else [mkSE c (.flat "page_start") "error"] := by
    rw [verify_schema_chunk]
    simp only [List.filter_append]
    rw [requiredBlock_filter_nil _ (by
      intro f hf hk
      refine decide_eq_false ?_
      intro h2
      have h3 : (mkSE c (SchemaField.flat f) "error").field = SchemaField.flat f := rfl
      rw [h3] at h2
      have hfe : f = "page_start" := SchemaField.flat.inj h2
      rw [hfe, hkps] at hk
      cases hk)]
    rw [filter_eq_nil_by_fieldName (fun e he => mem_chunkTypeBlock he) _
      (hp_flat "page_start" _ (by decide))]
    rw [filter_eq_nil_by_fieldName (fun e he => mem_locatorsBlock he) _
      (hp_flat "page_start" _ (by decide))]
    rw [filter_eq_nil_by_fieldName (fun e he => mem_splitFieldBlock he) _
      (hp_flat "page_start" _ (by decide))]
    rw [filter_eq_nil_by_fieldName (fun e he => mem_referencesBlock he) _
      (hp_flat "page_start" _ (by decide))]
    rw [filter_eq_nil_by_fieldName (fun e he => mem_sectionPathBlock he) _
      (hp_flat "page_start" _ (by decide))]
    rw [filter_eq_nil_by_fieldName (fun e he => mem_keywordsBlock he) _
      (hp_flat "page_start" _ (by decide))]
    rw [filter_eq_nil_by_fieldName (fun e he => mem_ontologyBlock he) _
      (hp_flat "page_start" _ (by decide))]
    rw [filter_eq_nil_by_fieldName (fun e he => mem_textBlock he) _
      (hp_flat "page_start" _ (by decide))]
    rw [filter_eq_nil_by_fieldName (fun e he => mem_embeddingBlock he) _
      (hp_flat "page_start" _ (by decide))]
    rw [filter_eq_nil_by_fieldName (fun e he => mem_domainEntitiesBlock he) _
      (hp_flat "page_start" _ (by decide))]
    rw [filter_eq_nil_by_fieldName (fun e he => mem_applicabilityBlock he) _
      (hp_flat "page_start" _ (by decide))]
    rw [filter_eq_nil_by_fieldName (fun e he => mem_normativeValuesBlock he) _
      (hp_flat "page_start" _ (by decide))]
    rw [filter_eq_nil_by_fieldName (fun e he => mem_tableOversizedBlock he) _
      (hp_flat "page_start" _ (by decide))]
    rw [filter_eq_nil_by_fieldName (fun e he => mem_tablesDataBlock he) _
      (hp_flat "page_start" _ (by decide))]
    rw [filter_eq_nil_by_fieldName (fun e he => mem_equationsBlock he) _
      (hp_flat "page_start" _ (by decide))]
    rw [hd, List.filter_append]
    have h1 : (pageCheck c (jgetNN c "page_start") "page_start" (minD vals1)).filter
        (fun e => e.field = SchemaField.flat "page_start")
        = if ps = minD vals1 then [] else [mkSE c (.flat "page_start") "error"] := by
      rw [hnnps]
      simp only [pageCheck, pyIntEq]
      by_cases hcmp : ps = minD vals1
      · rw [if_pos (by simp [hcmp]), if_pos hcmp]
        rfl
      · rw [if_neg (by simp [hcmp]), if_neg hcmp]
        rw [List.filter_cons]
        simp [mkSE]
    have h2 : (pageCheck c (jgetNN c "page_end") "page_end" (maxD vals2)).filter
        (fun e => e.field = SchemaField.flat "page_start") = [] := by
      rw [List.filter_eq_nil_iff]
      intro e he hpe2
      rw [mem_pageCheck he] at hpe2
      simp [mkSE] at hpe2
    rw [h1, h2]
    simp
  have hfilterPE : (verify_schema_chunk c).filter
      (fun e => e.field = SchemaField.flat "page_end")
      = if pe = maxD vals2 then [] else [mkSE c (.flat "page_end") "error"] := by
    rw [verify_schema_chunk]
    simp only [List.filter_append]
    rw [requiredBlock_filter_nil _ (by
      intro f hf hk
      refine decide_eq_false ?_
      intro h2
      have h3 : (mkSE c (SchemaField.flat f) "error").field = SchemaField.flat f := rfl
      rw [h3] at h2
      have hfe : f = "page_end" := SchemaField.flat.inj h2
      rw [hfe, hkpe] at hk
      cases hk)]
    rw [filter_eq_nil_by_fieldName (fun e he => mem_chunkTypeBlock he) _
      (hp_flat "page_end" _ (by decide))]
    rw [filter_eq_nil_by_fieldName (fun e he => mem_locatorsBlock he) _
      (hp_flat "page_end" _ (by decide))]
    rw [filter_eq_nil_by_fieldName (fun e he => mem_splitFieldBlock he) _
      (hp_flat "page_end" _ (by decide))]
    rw [filter_eq_nil_by_fieldName (fun e he => mem_referencesBlock he) _
      (hp_flat "page_end" _ (by decide))]
    rw [filter_eq_nil_by_fieldName (fun e he => mem_sectionPathBlock he) _
      (hp_flat "page_end" _ (by decide))]
    rw [filter_eq_nil_by_fieldName (fun e he => mem_keywordsBlock he) _
      (hp_flat "page_end" _ (by decide))]
    rw [filter_eq_nil_by_fieldName (fun e he => mem_ontologyBlock he) _
      (hp_flat "page_end" _ (by decide))]
    rw [filter_eq_nil_by_fieldName (fun e he => mem_textBlock he) _
      (hp_flat "page_end" _ (by decide))]
    rw [filter_eq_nil_by_fieldName (fun e he => mem_embeddingBlock he) _
      (hp_flat "page_end" _ (by decide))]
    rw [filter_eq_nil_by_fieldName (fun e he => mem_domainEntitiesBlock he) _
      (hp_flat "page_end" _ (by decide))]
    rw [filter_eq_nil_by_fieldName (fun e he => mem_applicabilityBlock he) _
      (hp_flat "page_end" _ (by decide))]
    rw [filter_eq_nil_by_fieldName (fun e he => mem_normativeValuesBlock he) _
      (hp_flat "page_end" _ (by decide))]
    rw [filter_eq_nil_by_fieldName (fun e he => mem_tableOversizedBlock he) _
      (hp_flat "page_end" _ (by decide))]
    rw [filter_eq_nil_by_fieldName (fun e he => mem_tablesDataBlock he) _
      (hp_flat "page_end" _ (by decide))]
    rw [filter_eq_nil_by_fieldName (fun e he => mem_equationsBlock he) _
      (hp_flat "page_end" _ (by decide))]
    rw [hd, List.filter_append]
    have h1 : (pageCheck c (jgetNN c "page_start") "page_start" (minD vals1)).filter
        (fun e => e.field = SchemaField.flat "page_end") = [] := by
      rw [List.filter_eq_nil_iff]
      intro e he hpe2
      rw [mem_pageCheck he] at hpe2
      simp [mkSE] at hpe2
    have h2 : (pageCheck c (jgetNN c "page_end") "page_end" (maxD vals2)).filter
        (fun e => e.field = SchemaField.flat "page_end")
        = if pe = maxD vals2 then [] else [mkSE c (.flat "page_end") "error"] := by
      rw [hnnpe]
      simp only [pageCheck, pyIntEq]
      by_cases hcmp : pe = maxD vals2
      · rw [if_pos (by simp [hcmp]), if_pos hcmp]
        rfl
      · rw [if_neg (by simp [hcmp]), if_neg hcmp]
        rw [List.filter_cons]
        simp [mkSE]
    rw [h1, h2]
    simp
  rcases minD_spec vals1 hvne1 with ⟨hminmem, hminle⟩
  rcases maxD_spec vals2 hvne2 with ⟨hmaxmem, hmaxle⟩
  refine ⟨by rw [hfilterPS, hsmin], by rw [hfilterPE, hsmax], ?_, ?_, ?_, ?_⟩
  · intro v hv
    rw [hsmin]
    exact hminle v ((hmem1 v).mpr hv)
  · rw [hsmin]
    exact (hmem1 (minD vals1)).mp hminmem
  · intro v hv
    rw [hsmax]
    exact hmaxle v ((hmem2 v).mpr hv)
  · rw [hsmax]
    exact (hmem2 (maxD vals2)).mp hmaxmem

theorem page_derived_consistency_witness :
    ((verify_schema_chunk pageDemoChunk).filter
        (fun e => e.field = SchemaField.flat "page_start") = []) ∧
    ((verify_schema_chunk pageDemoChunk).filter
        (fun e => e.field = SchemaField.flat "page_end")
      = [mkSE pageDemoChunk (.flat "page_end") "error"]) := by
  have h := page_derived_consistency pageDemoChunk
      [("spans", JValue.arr pageDemoSpans)] pageDemoSpans 2 5
      (by decide) (by decide) (by decide)
      (by
        intro s hs
        rw [List.mem_singleton.mp hs]
        exact ⟨_, rfl, ⟨2, by decide⟩, ⟨3, by decide⟩⟩)
      (by decide) (by decide)
  refine ⟨?_, ?_⟩
  · rw [h.1, if_pos (by decide)]
  · rw [h.2.1, if_neg (by decide)]

/-- C9 counterexample: a reference element whose `type` is present with the
falsy value `""` — a value outside the valid set — produces no finding on that
element's `type` field, because the source guards the check with Python
truthiness (`if rtype and rtype not in ...`). -/
theorem ref_type_falsy_no_finding :
    (hasKey [("target", JValue.str "x"), ("type", JValue.str "")] "type" = true) ∧
    (validRefType (JValue.str "") = false) ∧
    ((verify_schema_chunk
        [("references", JValue.arr
          [JValue.obj [("target", JValue.str "x"), ("type", JValue.str "")]])]).countP
        (fun e => e.field = SchemaField.refElem 0 ".type") = 0) := by
  decide

theorem hp_refElem (i : Nat) (sub : String) (L : List String)
    (hfn : "references[*" ∉ L) :
    ∀ e : SchemaError, (decide (e.field = SchemaField.refElem i sub)) = true →
      fieldName e.field ∉ L := by
  intro e hpe
  rw [of_decide_eq_true hpe]
  simpa [fieldName] using hfn

theorem refFilter_nil_of_ne (c : Chunk) (i : Nat)
    (j : Nat) (hj : j ≠ i) (r : JValue) :
    (refItemFindings c j r).filter
      (fun e => e.field = SchemaField.refElem i ".type") = [] := by
  rw [List.filter_eq_nil_iff]
  intro e he hpe
  rcases mem_refItemFindings he with ⟨sub, sev, rfl⟩
  have h2 : SchemaField.refElem j sub = SchemaField.refElem i ".type" :=
    of_decide_eq_true hpe
  exact hj (SchemaField.refElem.inj h2).1

theorem idxAux_ref_filter_single (c : Chunk) (i : Nat) :
    ∀ (l : List JValue) (k : Nat) (r : JValue), k ≤ i → l.get? (i - k) = some r →
      (idxAux (refItemFindings c) k l).filter
          (fun e => e.field = SchemaField.refElem i ".type")
        = (refItemFindings c i r).filter
          (fun e => e.field = SchemaField.refElem i ".type") := by
  intro l
  induction l with
  | nil =>
    intro k r _ hget
    cases hget
  | cons a l ih =>
    intro k r hk hget
    rw [idxAux, List.filter_append]
    by_cases hki : k = i
    · subst hki
      rw [show k - k = 0 from by omega, List.get?_cons_zero] at hget
      rcases Option.some.inj hget with rfl
      have h2 : (idxAux (refItemFindings c) (k + 1) l).filter
          (fun e => e.field = SchemaField.refElem k ".type") = [] := by
        rw [List.filter_eq_nil_iff]
        intro e he hpe
        rcases mem_idxAux.mp he with ⟨j, x, _, hx⟩
        rcases mem_refItemFindings hx with ⟨sub, sev, rfl⟩
        have h3 : SchemaField.refElem (k + 1 + j) sub = SchemaField.refElem k ".type" :=
          of_decide_eq_true hpe
        have h4 := (SchemaField.refElem.inj h3).1
        omega
      rw [h2, List.append_nil]
    · rw [refFilter_nil_of_ne c i k hki a, List.nil_append]
      refine ih (k + 1) r (by omega) ?_
      rw [show i - k = (i - (k + 1)) + 1 from by omega, List.get?_cons_succ] at hget
      exact hget

theorem refItemFindings_type_filter (c : Chunk) (i : Nat)
    (R : List (String × JValue)) (v : JValue)
    (htype : jget R "type" = some v) (htru : jtruthy v = true)
    (hval : validRefType v = false) :
    (refItemFindings c i (.obj R)).filter
      (fun e => e.field = SchemaField.refElem i ".type")
      = [mkSE c (.refElem i ".type") "error"] := by
  have hkey : hasKey R "type" = true := by rw [hasKey, htype]; rfl
  rcases hT : hasKey R "target" with _ | _ <;>
    rcases hrel : jgetNN R "relation" with _ | rel <;>
    rcases htn : jget R "target_norm" with _ | jv
  all_goals try cases jv
  all_goals simp only [refItemFindings, hrel, htn, hT, htype, Option.getD_some,
    htru, hval, hkey, REQUIRED_REFERENCE_FIELDS, List.filterMap_cons,
    List.filterMap_nil, List.filter_append, if_true, if_false,
    Bool.false_eq_true, Bool.true_eq_false, ite_true, ite_false]
  all_goals split_ifs
  all_goals simp_all [mkSE, SchemaField.refElem.injEq, List.filter_cons]

/-- C9 (amended): for every chunk whose `references` is a list, and every
element of it that is an object whose `type` field holds a *truthy* value
outside the closed set {internal, cross_part, external}, the schema validator
emits exactly one error-severity finding on that element's `type` field (and
no other finding anywhere targets that field). -/
theorem ref_type_invalid_truthy_flagged (c : Chunk) (rs : List JValue) (i : Nat)
    (R : List (String × JValue)) (v : JValue)
    (hrefs : jget c "references" = some (.arr rs))
    (hi : rs.get? i = some (.obj R))
    (htype : jget R "type" = some v)
    (htru : jtruthy v = true)
    (hval : validRefType v = false) :
    (verify_schema_chunk c).filter
      (fun e => e.field = SchemaField.refElem i ".type")
      = [mkSE c (.refElem i ".type") "error"] := by
  rw [verify_schema_chunk]
  simp only [List.filter_append]
  rw [requiredBlock_filter_nil _ (by
    intro f hf hk
    refine decide_eq_false ?_
    intro h2
    have h3 : SchemaField.flat f = SchemaField.refElem i ".type" := h2
    exact SchemaField.noConfusion h3)]
  rw [filter_eq_nil_by_fieldName (fun e he => mem_chunkTypeBlock he) _
    (hp_refElem i ".type" _ (by decide))]
  rw [filter_eq_nil_by_fieldName (fun e he => mem_locatorsBlock he) _
    (hp_refElem i ".type" _ (by decide))]
  rw [filter_eq_nil_by_fieldName (fun e he => mem_derivedBlock he) _
    (hp_refElem i ".type" _ (by decide))]
  rw [filter_eq_nil_by_fieldName (fun e he => mem_splitFieldBlock he) _
    (hp_refElem i ".type" _ (by decide))]
  rw [filter_eq_nil_by_fieldName (fun e he => mem_sectionPathBlock he) _
    (hp_refElem i ".type" _ (by decide))]
  rw [filter_eq_nil_by_fieldName (fun e he => mem_keywordsBlock he) _
    (hp_refElem i ".type" _ (by decide))]
  rw [filter_eq_nil_by_fieldName (fun e he => mem_ontologyBlock he) _
    (hp_refElem i ".type" _ (by decide))]
  rw [filter_eq_nil_by_fieldName (fun e he => mem_textBlock he) _
    (hp_refElem i ".type" _ (by decide))]
  rw [filter_eq_nil_by_fieldName (fun e he => mem_embeddingBlock he) _
    (hp_refElem i ".type" _ (by decide))]
  rw [filter_eq_nil_by_fieldName (fun e he => mem_domainEntitiesBlock he) _
    (hp_refElem i ".type" _ (by decide))]
  rw [filter_eq_nil_by_fieldName (fun e he => mem_applicabilityBlock he) _
    (hp_refElem i ".type" _ (by decide))]
  rw [filter_eq_nil_by_fieldName (fun e he => mem_normativeValuesBlock he) _
    (hp_refElem i ".type" _ (by decide))]
  rw [filter_eq_nil_by_fieldName (fun e he => mem_tableOversizedBlock he) _
    (hp_refElem i ".type" _ (by decide))]
  rw [filter_eq_nil_by_fieldName (fun e he => mem_tablesDataBlock he) _
    (hp_refElem i ".type" _ (by decide))]
  rw [filter_eq_nil_by_fieldName (fun e he => mem_equationsBlock he) _
    (hp_refElem i ".type" _ (by decide))]
  have hrb : referencesBlock c = idxAux (refItemFindings c) 0 rs := by
    rw [referencesBlock, hrefs]
    rfl
  rw [hrb]
  rw [idxAux_ref_filter_single c i rs 0 (.obj R) (Nat.zero_le i) (by simpa using hi)]
  rw [refItemFindings_type_filter c i R v htype htru hval]
  simp

theorem ref_type_invalid_truthy_flagged_witness :
    (verify_schema_chunk
        [("references", JValue.arr
          [JValue.obj [("target", JValue.str "x"), ("type", JValue.str "bogus")]])]).filter
      (fun e => e.field = SchemaField.refElem 0 ".type")
      = [mkSE [("references", JValue.arr
          [JValue.obj [("target", JValue.str "x"), ("type", JValue.str "bogus")]])]
          (.refElem 0 ".type") "error"] :=
  ref_type_invalid_truthy_flagged
    [("references", JValue.arr
      [JValue.obj [("target", JValue.str "x"), ("type", JValue.str "bogus")]])]
    [JValue.obj [("target", JValue.str "x"), ("type", JValue.str "bogus")]]
    0
    [("target", JValue.str "x"), ("type", JValue.str "bogus")]
    (JValue.str "bogus")
    (by decide) (by decide) (by decide) (by decide) (by decide)

theorem fam_filter_nil {l : List SchemaError} {L : List String}
    {p : SchemaError → Bool} (a b : String)
    (hshape : ∀ e ∈ l, fieldName e.field ∈ L)
    (hp : ∀ e, p e = true → fieldName e.field = a ∨ fieldName e.field = b)
    (ha : a ∉ L) (hb : b ∉ L) :
    l.filter p = [] := by
  rw [List.filter_eq_nil_iff]
  intro e he hpe
  have hmem := hshape e he
  rcases hp e hpe with h | h
  · rw [h] at hmem
    exact ha hmem
  · rw [h] at hmem
    exact hb hmem

theorem requiredBlock_fam_nil (c : Chunk) {p : SchemaError → Bool} (a b : String)
    (hp : ∀ e, p e = true → fieldName e.field = a ∨ fieldName e.field = b)
    (ha : hasKey c a = true)
    (hb : b ∉ REQUIRED_CHUNK_FIELDS ∨ hasKey c b = true) :
    (requiredBlock c).filter p = [] := by
  rw [List.filter_eq_nil_iff]
  intro e he hpe
  rcases mem_requiredBlock he with ⟨f, hf, hkneg, rfl⟩
  rcases hp _ hpe with h | h
  · have h2 : f = a := h
    rw [h2, ha] at hkneg
    cases hkneg
  · have h2 : f = b := h
    rcases hb with hb | hb
    · rw [h2] at hf
      exact hb hf
    · rw [h2, hb] at hkneg
      cases hkneg

theorem schema_filter_localize (c : Chunk) (p : SchemaError → Bool)
    (h1 : (requiredBlock c).filter p = [])
    (h2 : (chunkTypeBlock c).filter p = [])
    (h3 : (locatorsBlock c).filter p = [])
    (h4 : (derivedBlock c).filter p = [])
    (h5 : (splitFieldBlock c).filter p = [])
    (h6 : (referencesBlock c).filter p = [])
    (h7 : (sectionPathBlock c).filter p = [])
    (h8 : (keywordsBlock c).filter p = [])
    (h9 : (ontologyBlock c).filter p = [])
    (h10 : (textBlock c).filter p = [])
    (h11 : (embeddingBlock c).filter p = [])
    (h12 : (domainEntitiesBlock c).filter p = [])
    (h13 : (applicabilityBlock c).filter p = [])
    (h14 : (normativeValuesBlock c).filter p = [])
    (h15 : (tableOversizedBlock c).filter p = [])
    (h16 : (tablesDataBlock c).filter p = [])
    (h17 : (equationsBlock c).filter p = []) :
    (verify_schema_chunk c).filter p = [] := by
  rw [verify_schema_chunk]
  simp only [List.filter_append, h1, h2, h3, h4, h5, h6, h7, h8, h9, h10, h11,
    h12, h13, h14, h15, h16, h17, List.append_nil]

theorem isRefsField_cases : ∀ f : SchemaField, isRefsField f = true →
    fieldName f = "references" ∨ fieldName f = "references[*" := by
  intro f h
  rw [isRefsField] at h
  simp only [Bool.or_eq_true, decide_eq_true_eq] at h
  exact h

theorem isKeywordsField_cases : ∀ f : SchemaField, isKeywordsField f = true →
    fieldName f = "keywords" ∨ fieldName f = "keywords" := by
  intro f h
  rw [isKeywordsField] at h
  exact Or.inl (of_decide_eq_true h)

theorem isDeField_cases : ∀ f : SchemaField, isDeField f = true →
    fieldName f = "domain_entities" ∨ fieldName f = "domain_entities[*" := by
  intro f h
  rw [isDeField] at h
  simp only [Bool.or_eq_true, decide_eq_true_eq] at h
  exact h

theorem isOkField_cases : ∀ f : SchemaField, isOkField f = true →
    fieldName f = "ontology_keywords" ∨ fieldName f = "ontology_keywords[*" := by
  intro f h
  rw [isOkField] at h
  simp only [Bool.or_eq_true, decide_eq_true_eq] at h
  exact h

theorem isSplitField_cases : ∀ f : SchemaField, isSplitField f = true →
    fieldName f = "split" ∨ fieldName f = "split.*" := by
  intro f h
  rw [isSplitField] at h
  simp only [Bool.or_eq_true, decide_eq_true_eq] at h
  exact h

theorem isTdField_cases : ∀ f : SchemaField, isTdField f = true →
    fieldName f = "tables_data" ∨ fieldName f = "tables_data.*" := by
  intro f h
  rw [isTdField] at h
  simp only [Bool.or_eq_true, decide_eq_true_eq] at h
  exact h

theorem isEqField_cases : ∀ f : SchemaField, isEqField f = true →
    fieldName f = "equations" ∨ fieldName f = "equations[*" := by
  intro f h
  rw [isEqField] at h
  simp only [Bool.or_eq_true, decide_eq_true_eq] at h
  exact h

/-- C5 counterexample: a chunk holding every optional container field with
value `null` yields *no* finding at all for `references`, `keywords`,
`domain_entities`, `ontology_keywords` (the `is not None` guards skip the
checks entirely) — the claimed error-severity finding does not exist.  Only
`tables_data` and `equations` flag their null with a warning. -/
theorem null_optional_fields_skipped :
    (hasKey nullDemoChunk "references" = true) ∧
    ((verify_schema_chunk nullDemoChunk).filter (fun e => isRefsField e.field) = []) ∧
    ((verify_schema_chunk nullDemoChunk).filter (fun e => isKeywordsField e.field) = []) ∧
    ((verify_schema_chunk nullDemoChunk).filter (fun e => isDeField e.field) = []) ∧
    ((verify_schema_chunk nullDemoChunk).filter (fun e => isOkField e.field) = []) ∧
    ((verify_schema_chunk nullDemoChunk).filter (fun e => isSplitField e.field) = []) ∧
    ((verify_schema_chunk nullDemoChunk).filter (fun e => isTdField e.field)
      = [mkSE nullDemoChunk (.flat "tables_data") "warning"]) ∧
    ((verify_schema_chunk nullDemoChunk).filter (fun e => isEqField e.field)
      = [mkSE nullDemoChunk (.flat "equations") "warning"]) := by
  decide

/-- C5 (amended): a present-but-null optional container field is silently
skipped — no finding of its field family — for `references`, `keywords`,
`domain_entities`, `ontology_keywords` and `split`; only `tables_data` and
`equations` flag a present-but-null value, each with exactly one
warning-severity finding on the field itself. -/
theorem null_optional_field_policy (c : Chunk) :
    (jget c "references" = some .null →
      (verify_schema_chunk c).filter (fun e => isRefsField e.field) = []) ∧
    (jget c "keywords" = some .null →
      (verify_schema_chunk c).filter (fun e => isKeywordsField e.field) = []) ∧
    (jget c "domain_entities" = some .null →
      (verify_schema_chunk c).filter (fun e => isDeField e.field) = []) ∧
    (jget c "ontology_keywords" = some .null →
      (verify_schema_chunk c).filter (fun e => isOkField e.field) = []) ∧
    (jget c "split" = some .null →
      (verify_schema_chunk c).filter (fun e => isSplitField e.field) = []) ∧
    (jget c "tables_data" = some .null →
      (verify_schema_chunk c).filter (fun e => isTdField e.field)
        = [mkSE c (.flat "tables_data") "warning"]) ∧
    (jget c "equations" = some .null →
      (verify_schema_chunk c).filter (fun e => isEqField e.field)
        = [mkSE c (.flat "equations") "warning"]) := by
  refine ⟨?_, ?_, ?_, ?_, ?_, ?_, ?_⟩
  · intro hX
    have hk : hasKey c "references" = true := by rw [hasKey, hX]; rfl
    have hown : referencesBlock c = [] := by rw [referencesBlock, hX]; rfl
    refine schema_filter_localize c _ ?_ ?_ ?_ ?_ ?_ ?_ ?_ ?_ ?_ ?_ ?_ ?_ ?_ ?_ ?_ ?_ ?_
    · exact requiredBlock_fam_nil c "references" "references[*"
        (fun e h => isRefsField_cases _ h) hk (Or.inl (by decide))
    · exact fam_filter_nil "references" "references[*" (fun e he => mem_chunkTypeBlock he)
        (fun e h => isRefsField_cases _ h) (by decide) (by decide)
    · exact fam_filter_nil "references" "references[*" (fun e he => mem_locatorsBlock he)
        (fun e h => isRefsField_cases _ h) (by decide) (by decide)
    · exact fam_filter_nil "references" "references[*" (fun e he => mem_derivedBlock he)
        (fun e h => isRefsField_cases _ h) (by decide) (by decide)
    · exact fam_filter_nil "references" "references[*" (fun e he => mem_splitFieldBlock he)
        (fun e h => isRefsField_cases _ h) (by decide) (by decide)
    · rw [hown]
      rfl
    · exact fam_filter_nil "references" "references[*" (fun e he => mem_sectionPathBlock he)
        (fun e h => isRefsField_cases _ h) (by decide) (by decide)
    · exact fam_filter_nil "references" "references[*" (fun e he => mem_keywordsBlock he)
        (fun e h => isRefsField_cases _ h) (by decide) (by decide)
    · exact fam_filter_nil "references" "references[*" (fun e he => mem_ontologyBlock he)
        (fun e h => isRefsField_cases _ h) (by decide) (by decide)
    · exact fam_filter_nil "references" "references[*" (fun e he => mem_textBlock he)
        (fun e h => isRefsField_cases _ h) (by decide) (by decide)
    · exact fam_filter_nil "references" "references[*" (fun e he => mem_embeddingBlock he)
        (fun e h => isRefsField_cases _ h) (by decide) (by decide)
    · exact fam_filter_nil "references" "references[*" (fun e he => mem_domainEntitiesBlock he)
        (fun e h => isRefsField_cases _ h) (by decide) (by decide)
    · exact fam_filter_nil "references" "references[*" (fun e he => mem_applicabilityBlock he)
        (fun e h => isRefsField_cases _ h) (by decide) (by decide)
    · exact fam_filter_nil "references" "references[*" (fun e he => mem_normativeValuesBlock he)
        (fun e h => isRefsField_cases _ h) (by decide) (by decide)
    · exact fam_filter_nil "references" "references[*" (fun e he => mem_tableOversizedBlock he)
        (fun e h => isRefsField_cases _ h) (by decide) (by decide)
    · exact fam_filter_nil "references" "references[*" (fun e he => mem_tablesDataBlock he)
        (fun e h => isRefsField_cases _ h) (by decide) (by decide)
    · exact fam_filter_nil "references" "references[*" (fun e he => mem_equationsBlock he)
        (fun e h => isRefsField_cases _ h) (by decide) (by decide)
  · intro hX
    have hk : hasKey c "keywords" = true := by rw [hasKey, hX]; rfl
    have hnn : jgetNN c "keywords" = none := by rw [jgetNN, hX]
    have hown : keywordsBlock c = [] := by rw [keywordsBlock, hnn]
    refine schema_filter_localize c _ ?_ ?_ ?_ ?_ ?_ ?_ ?_ ?_ ?_ ?_ ?_ ?_ ?_ ?_ ?_ ?_ ?_
    · exact requiredBlock_fam_nil c "keywords" "keywords"
        (fun e h => isKeywordsField_cases _ h) hk (Or.inr hk)
    · exact fam_filter_nil "keywords" "keywords" (fun e he => mem_chunkTypeBlock he)
        (fun e h => isKeywordsField_cases _ h) (by decide) (by decide)
    · exact fam_filter_nil "keywords" "keywords" (fun e he => mem_locatorsBlock he)
        (fun e h => isKeywordsField_cases _ h) (by decide) (by decide)
    · exact fam_filter_nil "keywords" "keywords" (fun e he => mem_derivedBlock he)
        (fun e h => isKeywordsField_cases _ h) (by decide) (by decide)
    · exact fam_filter_nil "keywords" "keywords" (fun e he => mem_splitFieldBlock he)
        (fun e h => isKeywordsField_cases _ h) (by decide) (by decide)
    · exact fam_filter_nil "keywords" "keywords" (fun e he => mem_referencesBlock he)
        (fun e h => isKeywordsField_cases _ h) (by decide) (by decide)
    · exact fam_filter_nil "keywords" "keywords" (fun e he => mem_sectionPathBlock he)
        (fun e h => isKeywordsField_cases _ h) (by decide) (by decide)
    · rw [hown]
      rfl
    · exact fam_filter_nil "keywords" "keywords" (fun e he => mem_ontologyBlock he)
        (fun e h => isKeywordsField_cases _ h) (by decide) (by decide)
    · exact fam_filter_nil "keywords" "keywords" (fun e he => mem_textBlock he)
        (fun e h => isKeywordsField_cases _ h) (by decide) (by decide)
    · exact fam_filter_nil "keywords" "keywords" (fun e he => mem_embeddingBlock he)
        (fun e h => isKeywordsField_cases _ h) (by decide) (by decide)
    · exact fam_filter_nil "keywords" "keywords" (fun e he => mem_domainEntitiesBlock he)
        (fun e h => isKeywordsField_cases _ h) (by decide) (by decide)
    · exact fam_filter_nil "keywords" "keywords" (fun e he => mem_applicabilityBlock he)
        (fun e h => isKeywordsField_cases _ h) (by decide) (by decide)
    · exact fam_filter_nil "keywords" "keywords" (fun e he => mem_normativeValuesBlock he)
        (fun e h => isKeywordsField_cases _ h) (by decide) (by decide)
    · exact fam_filter_nil "keywords" "keywords" (fun e he => mem_tableOversizedBlock he)
        (fun e h => isKeywordsField_cases _ h) (by decide) (by decide)
    · exact fam_filter_nil "keywords" "keywords" (fun e he => mem_tablesDataBlock he)
        (fun e h => isKeywordsField_cases _ h) (by decide) (by decide)
    · exact fam_filter_nil "keywords" "keywords" (fun e he => mem_equationsBlock he)
        (fun e h => isKeywordsField_cases _ h) (by decide) (by decide)
  · intro hX
    have hk : hasKey c "domain_entities" = true := by rw [hasKey, hX]; rfl
    have hnn : jgetNN c "domain_entities" = none := by rw [jgetNN, hX]
    have hown : domainEntitiesBlock c = [] := by rw [domainEntitiesBlock, hnn]
    refine schema_filter_localize c _ ?_ ?_ ?_ ?_ ?_ ?_ ?_ ?_ ?_ ?_ ?_ ?_ ?_ ?_ ?_ ?_ ?_
    · exact requiredBlock_fam_nil c "domain_entities" "domain_entities[*"
        (fun e h => isDeField_cases _ h) hk (Or.inl (by decide))
    · exact fam_filter_nil "domain_entities" "domain_entities[*" (fun e he => mem_chunkTypeBlock he)
        (fun e h => isDeField_cases _ h) (by decide) (by decide)
    · exact fam_filter_nil "domain_entities" "domain_entities[*" (fun e he => mem_locatorsBlock he)
        (fun e h => isDeField_cases _ h) (by decide) (by decide)
    · exact fam_filter_nil "domain_entities" "domain_entities[*" (fun e he => mem_derivedBlock he)
        (fun e h => isDeField_cases _ h) (by decide) (by decide)
    · exact fam_filter_nil "domain_entities" "domain_entities[*" (fun e he => mem_splitFieldBlock he)
        (fun e h => isDeField_cases _ h) (by decide) (by decide)
    · exact fam_filter_nil "domain_entities" "domain_entities[*" (fun e he => mem_referencesBlock he)
        (fun e h => isDeField_cases _ h) (by decide) (by decide)
    · exact fam_filter_nil "domain_entities" "domain_entities[*" (fun e he => mem_sectionPathBlock he)
        (fun e h => isDeField_cases _ h) (by decide) (by decide)
    · exact fam_filter_nil "domain_entities" "domain_entities[*" (fun e he => mem_keywordsBlock he)
        (fun e h => isDeField_cases _ h) (by decide) (by decide)
    · exact fam_filter_nil "domain_entities" "domain_entities[*" (fun e he => mem_ontologyBlock he)
        (fun e h => isDeField_cases _ h) (by decide) (by decide)
    · exact fam_filter_nil "domain_entities" "domain_entities[*" (fun e he => mem_textBlock he)
        (fun e h => isDeField_cases _ h) (by decide) (by decide)
    · exact fam_filter_nil "domain_entities" "domain_entities[*" (fun e he => mem_embeddingBlock he)
        (fun e h => isDeField_cases _ h) (by decide) (by decide)
    · rw [hown]
      rfl
    · exact fam_filter_nil "domain_entities" "domain_entities[*" (fun e he => mem_applicabilityBlock he)
        (fun e h => isDeField_cases _ h) (by decide) (by decide)
    · exact fam_filter_nil "domain_entities" "domain_entities[*" (fun e he => mem_normativeValuesBlock he)
        (fun e h => isDeField_cases _ h) (by decide) (by decide)
    · exact fam_filter_nil "domain_entities" "domain_entities[*" (fun e he => mem_tableOversizedBlock he)
        (fun e h => isDeField_cases _ h) (by decide) (by decide)
    · exact fam_filter_nil "domain_entities" "domain_entities[*" (fun e he => mem_tablesDataBlock he)
        (fun e h => isDeField_cases _ h) (by decide) (by decide)
    · exact fam_filter_nil "domain_entities" "domain_entities[*" (fun e he => mem_equationsBlock he)
        (fun e h => isDeField_cases _ h) (by decide) (by decide)
  · intro hX
    have hk : hasKey c "ontology_keywords" = true := by rw [hasKey, hX]; rfl
    have hnn : jgetNN c "ontology_keywords" = none := by rw [jgetNN, hX]
    have hown : ontologyBlock c = [] := by rw [ontologyBlock, hnn]
    refine schema_filter_localize c _ ?_ ?_ ?_ ?_ ?_ ?_ ?_ ?_ ?_ ?_ ?_ ?_ ?_ ?_ ?_ ?_ ?_
    · exact requiredBlock_fam_nil c "ontology_keywords" "ontology_keywords[*"
        (fun e h => isOkField_cases _ h) hk (Or.inl (by decide))
    · exact fam_filter_nil "ontology_keywords" "ontology_keywords[*" (fun e he => mem_chunkTypeBlock he)
        (fun e h => isOkField_cases _ h) (by decide) (by decide)
    · exact fam_filter_nil "ontology_keywords" "ontology_keywords[*" (fun e he => mem_locatorsBlock he)
        (fun e h => isOkField_cases _ h) (by decide) (by decide)
    · exact fam_filter_nil "ontology_keywords" "ontology_keywords[*" (fun e he => mem_derivedBlock he)
        (fun e h => isOkField_cases _ h) (by decide) (by decide)
    · exact fam_filter_nil "ontology_keywords" "ontology_keywords[*" (fun e he => mem_splitFieldBlock he)
        (fun e h => isOkField_cases _ h) (by decide) (by decide)
    · exact fam_filter_nil "ontology_keywords" "ontology_keywords[*" (fun e he => mem_referencesBlock he)
        (fun e h => isOkField_cases _ h) (by decide) (by decide)
    · exact fam_filter_nil "ontology_keywords" "ontology_keywords[*" (fun e he => mem_sectionPathBlock he)
        (fun e h => isOkField_cases _ h) (by decide) (by decide)
    · exact fam_filter_nil "ontology_keywords" "ontology_keywords[*" (fun e he => mem_keywordsBlock he)
        (fun e h => isOkField_cases _ h) (by decide) (by decide)
    · rw [hown]
      rfl
    · exact fam_filter_nil "ontology_keywords" "ontology_keywords[*" (fun e he => mem_textBlock he)
        (fun e h => isOkField_cases _ h) (by decide) (by decide)
    · exact fam_filter_nil "ontology_keywords" "ontology_keywords[*" (fun e he => mem_embeddingBlock he)
        (fun e h => isOkField_cases _ h) (by decide) (by decide)
    · exact fam_filter_nil "ontology_keywords" "ontology_keywords[*" (fun e he => mem_domainEntitiesBlock he)
        (fun e h => isOkField_cases _ h) (by decide) (by decide)
    · exact fam_filter_nil "ontology_keywords" "ontology_keywords[*" (fun e he => mem_applicabilityBlock he)
        (fun e h => isOkField_cases _ h) (by decide) (by decide)
    · exact fam_filter_nil "ontology_keywords" "ontology_keywords[*" (fun e he => mem_normativeValuesBlock he)
        (fun e h => isOkField_cases _ h) (by decide) (by decide)
    · exact fam_filter_nil "ontology_keywords" "ontology_keywords[*" (fun e he => mem_tableOversizedBlock he)
        (fun e h => isOkField_cases _ h) (by decide) (by decide)
    · exact fam_filter_nil "ontology_keywords" "ontology_keywords[*" (fun e he => mem_tablesDataBlock he)
        (fun e h => isOkField_cases _ h) (by decide) (by decide)
    · exact fam_filter_nil "ontology_keywords" "ontology_keywords[*" (fun e he => mem_equationsBlock he)
        (fun e h => isOkField_cases _ h) (by decide) (by decide)
  · intro hX
    have hk : hasKey c "split" = true := by rw [hasKey, hX]; rfl
    have hnn : jgetNN c "split" = none := by rw [jgetNN, hX]
    have hown : splitFieldBlock c = [] := by rw [splitFieldBlock, hnn]
    refine schema_filter_localize c _ ?_ ?_ ?_ ?_ ?_ ?_ ?_ ?_ ?_ ?_ ?_ ?_ ?_ ?_ ?_ ?_ ?_
    · exact requiredBlock_fam_nil c "split" "split.*"
        (fun e h => isSplitField_cases _ h) hk (Or.inl (by decide))
    · exact fam_filter_nil "split" "split.*" (fun e he => mem_chunkTypeBlock he)
        (fun e h => isSplitField_cases _ h) (by decide) (by decide)
    · exact fam_filter_nil "split" "split.*" (fun e he => mem_locatorsBlock he)
        (fun e h => isSplitField_cases _ h) (by decide) (by decide)
    · exact fam_filter_nil "split" "split.*" (fun e he => mem_derivedBlock he)
        (fun e h => isSplitField_cases _ h) (by decide) (by decide)
    · rw [hown]
      rfl
    · exact fam_filter_nil "split" "split.*" (fun e he => mem_referencesBlock he)
        (fun e h => isSplitField_cases _ h) (by decide) (by decide)
    · exact fam_filter_nil "split" "split.*" (fun e he => mem_sectionPathBlock he)
        (fun e h => isSplitField_cases _ h) (by decide) (by decide)
    · exact fam_filter_nil "split" "split.*" (fun e he => mem_keywordsBlock he)
        (fun e h => isSplitField_cases _ h) (by decide) (by decide)
    · exact fam_filter_nil "split" "split.*" (fun e he => mem_ontologyBlock he)
        (fun e h => isSplitField_cases _ h) (by decide) (by decide)
    · exact fam_filter_nil "split" "split.*" (fun e he => mem_textBlock he)
        (fun e h => isSplitField_cases _ h) (by decide) (by decide)
    · exact fam_filter_nil "split" "split.*" (fun e he => mem_embeddingBlock he)
        (fun e h => isSplitField_cases _ h) (by decide) (by decide)
    · exact fam_filter_nil "split" "split.*" (fun e he => mem_domainEntitiesBlock he)
        (fun e h => isSplitField_cases _ h) (by decide) (by decide)
    · exact fam_filter_nil "split" "split.*" (fun e he => mem_applicabilityBlock he)
        (fun e h => isSplitField_cases _ h) (by decide) (by decide)
    · exact fam_filter_nil "split" "split.*" (fun e he => mem_normativeValuesBlock he)
        (fun e h => isSplitField_cases _ h) (by decide) (by decide)
    · exact fam_filter_nil "split" "split.*" (fun e he => mem_tableOversizedBlock he)
        (fun e h => isSplitField_cases _ h) (by decide) (by decide)
    · exact fam_filter_nil "split" "split.*" (fun e he => mem_tablesDataBlock he)
        (fun e h => isSplitField_cases _ h) (by decide) (by decide)
    · exact fam_filter_nil "split" "split.*" (fun e he => mem_equationsBlock he)
        (fun e h => isSplitField_cases _ h) (by decide) (by decide)
  · intro hX
    have hk : hasKey c "tables_data" = true := by rw [hasKey, hX]; rfl
    have hown : tablesDataBlock c = [mkSE c (.flat "tables_data") "warning"] := by
      rw [tablesDataBlock, hX]
    rw [verify_schema_chunk]
    simp only [List.filter_append]
    rw [requiredBlock_fam_nil c "tables_data" "tables_data.*"
      (fun e h => isTdField_cases _ h) hk (Or.inl (by decide))]
    rw [fam_filter_nil "tables_data" "tables_data.*" (fun e he => mem_chunkTypeBlock he)
      (fun e h => isTdField_cases _ h) (by decide) (by decide)]
    rw [fam_filter_nil "tables_data" "tables_data.*" (fun e he => mem_locatorsBlock he)
      (fun e h => isTdField_cases _ h) (by decide) (by decide)]
    rw [fam_filter_nil "tables_data" "tables_data.*" (fun e he => mem_derivedBlock he)
      (fun e h => isTdField_cases _ h) (by decide) (by decide)]
    rw [fam_filter_nil "tables_data" "tables_data.*" (fun e he => mem_splitFieldBlock he)
      (fun e h => isTdField_cases _ h) (by decide) (by decide)]
    rw [fam_filter_nil "tables_data" "tables_data.*" (fun e he => mem_referencesBlock he)
      (fun e h => isTdField_cases _ h) (by decide) (by decide)]
    rw [fam_filter_nil "tables_data" "tables_data.*" (fun e he => mem_sectionPathBlock he)
      (fun e h => isTdField_cases _ h) (by decide) (by decide)]
    rw [fam_filter_nil "tables_data" "tables_data.*" (fun e he => mem_keywordsBlock he)
      (fun e h => isTdField_cases _ h) (by decide) (by decide)]
    rw [fam_filter_nil "tables_data" "tables_data.*" (fun e he => mem_ontologyBlock he)
      (fun e h => isTdField_cases _ h) (by decide) (by decide)]
    rw [fam_filter_nil "tables_data" "tables_data.*" (fun e he => mem_textBlock he)
      (fun e h => isTdField_cases _ h) (by decide) (by decide)]
    rw [fam_filter_nil "tables_data" "tables_data.*" (fun e he => mem_embeddingBlock he)
      (fun e h => isTdField_cases _ h) (by decide) (by decide)]
    rw [fam_filter_nil "tables_data" "tables_data.*" (fun e he => mem_domainEntitiesBlock he)
      (fun e h => isTdField_cases _ h) (by decide) (by decide)]
    rw [fam_filter_nil "tables_data" "tables_data.*" (fun e he => mem_applicabilityBlock he)
      (fun e h => isTdField_cases _ h) (by decide) (by decide)]
    rw [fam_filter_nil "tables_data" "tables_data.*" (fun e he => mem_normativeValuesBlock he)
      (fun e h => isTdField_cases _ h) (by decide) (by decide)]
    rw [fam_filter_nil "tables_data" "tables_data.*" (fun e he => mem_tableOversizedBlock he)
      (fun e h => isTdField_cases _ h) (by decide) (by decide)]
    rw [fam_filter_nil "tables_data" "tables_data.*" (fun e he => mem_equationsBlock he)
      (fun e h => isTdField_cases _ h) (by decide) (by decide)]
    rw [hown, List.filter_cons, if_pos (by rfl)]
    simp
  · intro hX
    have hk : hasKey c "equations" = true := by rw [hasKey, hX]; rfl
    have hown : equationsBlock c = [mkSE c (.flat "equations") "warning"] := by
      rw [equationsBlock, hX]
    rw [verify_schema_chunk]
    simp only [List.filter_append]
    rw [requiredBlock_fam_nil c "equations" "equations[*"
      (fun e h => isEqField_cases _ h) hk (Or.inl (by decide))]
    rw [fam_filter_nil "equations" "equations[*" (fun e he => mem_chunkTypeBlock he)
      (fun e h => isEqField_cases _ h) (by decide) (by decide)]
    rw [fam_filter_nil "equations" "equations[*" (fun e he => mem_locatorsBlock he)
      (fun e h => isEqField_cases _ h) (by decide) (by decide)]
    rw [fam_filter_nil "equations" "equations[*" (fun e he => mem_derivedBlock he)
      (fun e h => isEqField_cases _ h) (by decide) (by decide)]
    rw [fam_filter_nil "equations" "equations[*" (fun e he => mem_splitFieldBlock he)
      (fun e h => isEqField_cases _ h) (by decide) (by decide)]
    rw [fam_filter_nil "equations" "equations[*" (fun e he => mem_referencesBlock he)
      (fun e h => isEqField_cases _ h) (by decide) (by decide)]
    rw [fam_filter_nil "equations" "equations[*" (fun e he => mem_sectionPathBlock he)
      (fun e h => isEqField_cases _ h) (by decide) (by decide)]
    rw [fam_filter_nil "equations" "equations[*" (fun e he => mem_keywordsBlock he)
      (fun e h => isEqField_cases _ h) (by decide) (by decide)]
    rw [fam_filter_nil "equations" "equations[*" (fun e he => mem_ontologyBlock he)
      (fun e h => isEqField_cases _ h) (by decide) (by decide)]
    rw [fam_filter_nil "equations" "equations[*" (fun e he => mem_textBlock he)
      (fun e h => isEqField_cases _ h) (by decide) (by decide)]
    rw [fam_filter_nil "equations" "equations[*" (fun e he => mem_embeddingBlock he)
      (fun e h => isEqField_cases _ h) (by decide) (by decide)]
    rw [fam_filter_nil "equations" "equations[*" (fun e he => mem_domainEntitiesBlock he)
      (fun e h => isEqField_cases _ h) (by decide) (by decide)]
    rw [fam_filter_nil "equations" "equations[*" (fun e he => mem_applicabilityBlock he)
      (fun e h => isEqField_cases _ h) (by decide) (by decide)]
    rw [fam_filter_nil "equations" "equations[*" (fun e he => mem_normativeValuesBlock he)
      (fun e h => isEqField_cases _ h) (by decide) (by decide)]
    rw [fam_filter_nil "equations" "equations[*" (fun e he => mem_tableOversizedBlock he)
      (fun e h => isEqField_cases _ h) (by decide) (by decide)]
    rw [fam_filter_nil "equations" "equations[*" (fun e he => mem_tablesDataBlock he)
      (fun e h => isEqField_cases _ h) (by decide) (by decide)]
    rw [hown, List.filter_cons, if_pos (by rfl)]
    simp

theorem null_optional_field_policy_witness :
    ((verify_schema_chunk nullDemoChunk).filter (fun e => isKeywordsField e.field) = []) ∧
    ((verify_schema_chunk nullDemoChunk).filter (fun e => isDeField e.field) = []) ∧
    ((verify_schema_chunk nullDemoChunk).filter (fun e => isOkField e.field) = []) ∧
    ((verify_schema_chunk nullDemoChunk).filter (fun e => isSplitField e.field) = []) ∧
    ((verify_schema_chunk nullDemoChunk).filter (fun e => isTdField e.field)
      = [mkSE nullDemoChunk (.flat "tables_data") "warning"]) ∧
    ((verify_schema_chunk nullDemoChunk).filter (fun e => isEqField e.field)
      = [mkSE nullDemoChunk (.flat "equations") "warning"]) := by
  have h := null_optional_field_policy nullDemoChunk
  exact ⟨h.2.1 (by decide), h.2.2.1 (by decide), h.2.2.2.1 (by decide),
    h.2.2.2.2.1 (by decide), h.2.2.2.2.2.1 (by decide), h.2.2.2.2.2.2 (by decide)⟩
